import Mathlib

/-!
# SafeKeys-Core: verification of the cryptographic envelope and vault I/O

Shallow embedding of the SafeKeys-Core TypeScript sources
(`src/crypto/*`, `src/vault/io/utils.ts`, `src/vault/vault.ts`,
`src/schemas/*`, `src/validation/validator.ts`) together with models of
the platform primitives they call (`JSON`, `Date`, `btoa`/`atob`,
WebCrypto PBKDF2 and the `crypto-aes-gcm` AEAD package).

JavaScript runtime values are embedded as the inductive `JVal`
(JSON values extended with `Date` objects and `undefined`), time as
milliseconds since the Unix epoch, and fallible operations as `Except`.
Randomness (`new Date()`, `generateId`, AEAD nonces) is passed in as
explicit parameters.
-/

set_option maxRecDepth 4000
set_option linter.unusedVariables false
set_option linter.unnecessarySimpa false
set_option linter.unnecessarySeqFocus false

namespace SafeKeys

/-- A JavaScript `Date` object: either a valid instant (milliseconds since
the Unix epoch, UTC) or the `Invalid Date` value. The embedding models the
post-1970 range only (all dates produced by the library are current
timestamps). -/
inductive JSDate where
  | valid (ms : Nat)
  | invalid
deriving DecidableEq, Repr

/-- Largest millisecond value representable by a JavaScript `Date`
(8.64e15, i.e. 100 000 000 days after the epoch). -/
def maxDateMs : Nat := 8640000000000000

/-! ## Gregorian calendar arithmetic (model of `Date.prototype.toISOString`
and of ISO-8601 parsing by `new Date(string)`).

`Date.prototype.toISOString` renders the UTC proleptic-Gregorian calendar
date of the timestamp as `YYYY-MM-DDTHH:mm:ss.sssZ` (years ≥ 10000 use the
expanded form `+YYYYYY-…`). These are platform primitives, modelled here
from their specification. Months are 0-based internally, as in JS. -/

def msPerDay : Nat := 86400000

def isLeap (y : Nat) : Bool :=
  (y % 4 == 0 && y % 100 != 0) || y % 400 == 0

def daysInYear (y : Nat) : Nat := if isLeap y then 366 else 365

/-- Length of 0-based month `m` of a year whose leap status is `leap`. -/
def daysInMonthB (leap : Bool) (m : Nat) : Nat :=
  if m = 1 then (if leap then 29 else 28)
  else if m = 3 ∨ m = 5 ∨ m = 8 ∨ m = 10 then 30
  else 31

/-- Length of 0-based month `m` of year `y`. -/
def daysInMonth (y m : Nat) : Nat := daysInMonthB (isLeap y) m

/-- Splits a day count (days since Jan 1 of year `y`) into the calendar
year it falls in and the remaining day-of-year; `fuel` (structural, at
least `d + 1`) dominates the number of years scanned. -/
def yearFromF : Nat → Nat → Nat → Nat × Nat
  | 0, y, d => (y, d)
  | fuel + 1, y, d =>
    if d < daysInYear y then (y, d)
    else yearFromF fuel (y + 1) (d - daysInYear y)

def yearFrom (y d : Nat) : Nat × Nat := yearFromF (d + 1) y d

/-- Number of days in the `n` consecutive years starting at year `y`. -/
def yearSpan (y : Nat) : Nat → Nat
  | 0 => 0
  | n + 1 => daysInYear y + yearSpan (y + 1) n

/-- Splits a day-of-year into a 0-based month and day-of-month, starting
the scan at month `m`; `fuel` (structural, at least `12 - m`) dominates
the number of months scanned. -/
def monthFromF : Nat → Bool → Nat → Nat → Nat × Nat
  | 0, _, m, d => (m, d)
  | fuel + 1, leap, m, d =>
    if 11 ≤ m then (m, d)
    else if d < daysInMonthB leap m then (m, d)
    else monthFromF fuel leap (m + 1) (d - daysInMonthB leap m)

def monthFrom (leap : Bool) (m d : Nat) : Nat × Nat := monthFromF (12 - m) leap m d

/-- Number of days in the `k` consecutive months starting at 0-based
month `m`, for a year of leap status `leap`. -/
def monthSpanFrom (leap : Bool) (m : Nat) : Nat → Nat
  | 0 => 0
  | k + 1 => daysInMonthB leap m + monthSpanFrom leap (m + 1) k

/-! ## Decimal digit printing and parsing -/

def digitChar (n : Nat) : Char := Char.ofNat (48 + n)

def isDigitCh (c : Char) : Bool := 48 ≤ c.toNat && c.toNat ≤ 57

/-- Decimal digits of `n`, most significant first; `fuel` (structural,
at least `n`) dominates the number of divisions by 10. -/
def toDigitsF : Nat → Nat → List Char
  | 0, n => [digitChar n]
  | fuel + 1, n =>
    if n < 10 then [digitChar n]
    else toDigitsF fuel (n / 10) ++ [digitChar (n % 10)]

def toDigits (n : Nat) : List Char := toDigitsF n n

/-- Left-pads the decimal rendering of `n` with zeros to width `w`. -/
def padNat (w n : Nat) : List Char :=
  List.replicate (w - (toDigits n).length) '0' ++ toDigits n

/-- Value of a digit string, accumulator style. -/
def digitsVal (acc : Nat) : List Char → Nat
  | [] => acc
  | c :: cs => digitsVal (acc * 10 + (c.toNat - 48)) cs

/-- Reads exactly `w` decimal digits from the front of `cs`. -/
def readDigits (acc : Nat) : Nat → List Char → Option (Nat × List Char)
  | 0, cs => some (acc, cs)
  | _ + 1, [] => none
  | w + 1, c :: cs =>
    if isDigitCh c then readDigits (acc * 10 + (c.toNat - 48)) w cs else none

/-! ## ISO-8601 rendering and parsing -/


def expectCh (c : Char) : List Char → Option (List Char)
  | [] => none
  | x :: xs => if x = c then some xs else none

/-- Reads a sequence of (separator, fixed-width decimal field) pairs. -/
def readFields : List (Char × Nat) → List Char → Option (List Nat × List Char)
  | [], cs => some ([], cs)
  | (c, w) :: specs, cs =>
    match expectCh c cs with
    | none => none
    | some cs1 =>
      match readDigits 0 w cs1 with
      | none => none
      | some (n, cs2) =>
        match readFields specs cs2 with
        | none => none
        | some (ns, cs3) => some (n :: ns, cs3)

/-- Renders values through the same (separator, width) field structure,
ending in `rest`. -/
def fieldsChars : List (Char × Nat) → List Nat → List Char → List Char
  | [], _, rest => rest
  | _ :: _, [], rest => rest
  | (c, w) :: specs, v :: vs, rest => c :: (padNat w v ++ fieldsChars specs vs rest)

/-- Shape and range side condition for `readFields_fieldsChars`: the value
list matches the spec list and each value fits in its field width. -/
def fieldsOk : List (Char × Nat) → List Nat → Prop
  | [], [] => True
  | (_, w) :: specs, v :: vs => (1 ≤ w ∧ v < 10 ^ w) ∧ fieldsOk specs vs
  | _, _ => False

/-- The (separator, width) structure of the `-MM-DDTHH:mm:ss.sssZ` tail
of an ISO date-time string. -/
def isoSpecs : List (Char × Nat) :=
  [('-', 2), ('-', 2), ('T', 2), (':', 2), (':', 2), ('.', 3)]

/-- Characters of the fixed `-MM-DDTHH:mm:ss.sssZ` tail of an ISO string. -/
def isoTailChars (mo1 dd1 hh mi ss msp : Nat) : List Char :=
  fieldsChars isoSpecs [mo1, dd1, hh, mi, ss, msp] ['Z']

/-- Model of `Date.prototype.toISOString` on a valid timestamp:
`YYYY-MM-DDTHH:mm:ss.sssZ`, with the expanded `+YYYYYY` year form beyond
year 9999 (ECMA-262 date-time string format). -/
def toISOChars (ms : Nat) : List Char :=
  let days := ms / msPerDay
  let t := ms % msPerDay
  let yd := yearFrom 1970 days
  let md := monthFrom (isLeap yd.1) 0 yd.2
  (if yd.1 < 10000 then padNat 4 yd.1 else '+' :: padNat 6 yd.1) ++
    isoTailChars (md.1 + 1) (md.2 + 1) (t / 3600000) (t % 3600000 / 60000)
      (t % 60000 / 1000) (t % 1000)

def toISOString (ms : Nat) : String := String.mk (toISOChars ms)

/-- Days since the epoch of the given civil date (0-based month `m` and
0-based day `d` within year `y ≥ 1970`). -/
def civilToDays (y m d : Nat) : Nat :=
  yearSpan 1970 (y - 1970) + monthSpanFrom (isLeap y) 0 m + d

/-- Parses the `-MM-DDTHH:mm:ss.sssZ` tail of a canonical ISO string and
returns the timestamp, given the already-parsed year. A model of the
ISO-8601 path of `new Date(string)` (field ranges are validated; an
out-of-range component yields an invalid date, i.e. `none`). -/
def parseISOTail (yy : Nat) (cs0 : List Char) : Option Nat :=
  match readFields isoSpecs cs0 with
  | some ([mo, dd, hh, mi, ss, msp], csr) =>
    if csr = ['Z'] then
      if 1 ≤ mo ∧ mo ≤ 12 ∧ 1970 ≤ yy ∧ 1 ≤ dd ∧
          dd ≤ daysInMonth yy (mo - 1) ∧ hh < 24 ∧ mi < 60 ∧ ss < 60 then
        let ms := civilToDays yy (mo - 1) (dd - 1) * msPerDay +
          hh * 3600000 + mi * 60000 + ss * 1000 + msp
        if ms ≤ maxDateMs then some ms else none
      else none
    else none
  | _ => none

def parseISOChars : List Char → Option Nat
  | c :: rest =>
    if c = '+' then
      match readDigits 0 6 rest with
      | some (yy, cs) => parseISOTail yy cs
      | none => none
    else
      match readDigits 0 4 (c :: rest) with
      | some (yy, cs) => parseISOTail yy cs
      | none => none
  | [] => none

/-- Model of ISO-8601 parsing by `new Date(string)`: `none` plays the
role of the JavaScript `Invalid Date`. Only the canonical (toISOString)
format is modelled. -/
def parseISO (s : String) : Option Nat := parseISOChars s.data

/-! ## Base64 (model of `btoa`/`atob` and of the JWK base64url coding)

`btoa`/`atob` are platform primitives (binary-string ↔ standard base64
with padding); the JWK `k` member uses unpadded base64url. Both are
modelled from their specifications. -/

def b64StdAlpha : List Char :=
  "ABCDEFGHIJKLMNOPQRSTUVWXYZabcdefghijklmnopqrstuvwxyz0123456789+/".data

def b64UrlAlpha : List Char :=
  "ABCDEFGHIJKLMNOPQRSTUVWXYZabcdefghijklmnopqrstuvwxyz0123456789-_".data

def b64CharStd (n : Nat) : Char := b64StdAlpha.getD n 'A'

def b64CharUrl (n : Nat) : Char := b64UrlAlpha.getD n 'A'

def b64ValStd (c : Char) : Option Nat := b64StdAlpha.indexOf? c

def b64ValUrl (c : Char) : Option Nat := b64UrlAlpha.indexOf? c

/-- Base64 encoding of a byte list, without padding. -/
def b64EncodeChunks (charOf : Nat → Char) : List Nat → List Char
  | [] => []
  | [a] => [charOf (a / 4), charOf (a % 4 * 16)]
  | [a, b] => [charOf (a / 4), charOf (a % 4 * 16 + b / 16), charOf (b % 16 * 4)]
  | a :: b :: c :: rest =>
    charOf (a / 4) :: charOf (a % 4 * 16 + b / 16) :: charOf (b % 16 * 4 + c / 64) ::
      charOf (c % 64) :: b64EncodeChunks charOf rest

/-- Base64 decoding of an unpadded character list. -/
def b64DecodeChunks (valOf : Char → Option Nat) : List Char → Option (List Nat)
  | [] => some []
  | [c1, c2] =>
    match valOf c1, valOf c2 with
    | some v1, some v2 => some [v1 * 4 + v2 / 16]
    | _, _ => none
  | [c1, c2, c3] =>
    match valOf c1, valOf c2, valOf c3 with
    | some v1, some v2, some v3 => some [v1 * 4 + v2 / 16, v2 % 16 * 16 + v3 / 4]
    | _, _, _ => none
  | c1 :: c2 :: c3 :: c4 :: rest =>
    match valOf c1, valOf c2, valOf c3, valOf c4, b64DecodeChunks valOf rest with
    | some v1, some v2, some v3, some v4, some bs =>
      some ((v1 * 4 + v2 / 16) :: (v2 % 16 * 16 + v3 / 4) :: (v3 % 4 * 64 + v4) :: bs)
    | _, _, _, _, _ => none
  | _ => none

/-- Strips any trailing `=` padding characters. -/
def dropTrailingEq (cs : List Char) : List Char :=
  (cs.reverse.dropWhile (fun c => c == '=')).reverse

/-- Model of the platform `btoa`: standard base64 with padding over a
binary string (code points above 255 raise `InvalidCharacterError`). -/
def jsBtoa (s : String) : Except String String :=
  if s.data.all (fun c => c.toNat ≤ 255) then
    .ok (String.mk
      (b64EncodeChunks b64CharStd (s.data.map Char.toNat) ++
        List.replicate
          ((4 - (b64EncodeChunks b64CharStd (s.data.map Char.toNat)).length % 4) % 4) '='))
  else .error "InvalidCharacterError"

/-- Model of the platform `atob`: decodes standard base64 (padding
stripped) to a binary string, failing on characters outside the
alphabet. -/
def jsAtob (s : String) : Except String String :=
  match b64DecodeChunks b64ValStd (dropTrailingEq s.data) with
  | some bs => .ok (String.mk (bs.map Char.ofNat))
  | none => .error "InvalidCharacterError"

/-! ## JavaScript runtime values

`JVal` embeds the JSON data model extended with `Date` objects and
`undefined`, which is enough for every runtime value flowing through the
vault I/O code. Number literals are modelled as integers (the envelope
format only ever contains integral numbers such as `entryCount`). -/

inductive JVal where
  | null
  | undef
  | bool (b : Bool)
  | num (n : Int)
  | str (s : String)
  | date (d : JSDate)
  | arr (elems : List JVal)
  | obj (fields : List (String × JVal))

def quoteCh : Char := Char.ofNat 34

def backslashCh : Char := Char.ofNat 92

def newlineCh : Char := Char.ofNat 10

def carriageCh : Char := Char.ofNat 13

def tabCh : Char := Char.ofNat 9

/-- Property read on an object field list (first match; objects built by
the embedding never contain duplicate keys). A missing property reads as
`undefined`, as in JavaScript. -/
def objGet : List (String × JVal) → String → JVal
  | [], _ => .undef
  | (k1, v1) :: fs, k => if k1 = k then v1 else objGet fs k

/-- Property write: updates the value in place if the key exists (keeping
its position, as JavaScript object assignment does), appends otherwise. -/
def objSet : List (String × JVal) → String → JVal → List (String × JVal)
  | [], k, v => [(k, v)]
  | (k1, v1) :: fs, k, v =>
    if k1 = k then (k1, v) :: fs else (k1, v1) :: objSet fs k v

/-- Property read on an arbitrary value (non-objects have no own
properties in this model; reads yield `undefined`). -/
def jsGet : JVal → String → JVal
  | .obj fs, k => objGet fs k
  | _, _ => (.undef)

/-- Own enumerable properties of a value, as used by object spread
`{...v}`: object fields, index properties of arrays and strings, nothing
for primitives. -/
def spreadFields : JVal → List (String × JVal)
  | .obj fs => fs
  | .arr xs => (List.range xs.length).zip (xs.map id) |>.map fun p => (toString p.1, p.2)
  | .str s => (List.range s.data.length).zip s.data |>.map
      fun p => (toString p.1, .str (String.mk [p.2]))
  | _ => []

/-- JavaScript truthiness. -/
def jsTruthy : JVal → Bool
  | .null => false
  | .undef => false
  | .bool b => b
  | .num n => n ≠ 0
  | .str s => s ≠ ""
  | .date _ => true
  | .arr _ => true
  | .obj _ => true

def hexDigitCh (n : Nat) : Char :=
  if n < 10 then digitChar n else Char.ofNat (87 + n)

/-- JSON string escaping, as performed by `JSON.stringify`. -/
def escapeChars (c : Char) : List Char :=
  if c = quoteCh then [backslashCh, quoteCh]
  else if c = backslashCh then [backslashCh, backslashCh]
  else if c = newlineCh then [backslashCh, 'n']
  else if c = carriageCh then [backslashCh, 'r']
  else if c = tabCh then [backslashCh, 't']
  else if c = Char.ofNat 8 then [backslashCh, 'b']
  else if c = Char.ofNat 12 then [backslashCh, 'f']
  else if c.toNat < 32 then
    [backslashCh, 'u', '0', '0', hexDigitCh (c.toNat / 16), hexDigitCh (c.toNat % 16)]
  else [c]

def jsonQuote (s : String) : String :=
  String.mk (quoteCh :: s.data.foldr (fun c acc => escapeChars c ++ acc) [quoteCh])

/-! Model of `JSON.stringify` (no replacer/indent). `Date` values render
through `Date.prototype.toJSON` (their ISO string; an invalid date yields
`null`); `undefined`-valued object members are omitted; `undefined` array
elements render as `null`. -/

mutual

def jsonStringify : JVal → String
  | .null => "null"
  | .undef => "null"
  | .bool b => if b then "true" else "false"
  | .num n => toString n
  | .str s => jsonQuote s
  | .date (.valid ms) => jsonQuote (toISOString ms)
  | .date .invalid => "null"
  | .arr xs => "[" ++ String.intercalate "," (stringifyElems xs) ++ "]"
  | .obj fs => "\x7b" ++ String.intercalate "," (stringifyMembers fs) ++ "\x7d"

def stringifyElems : List JVal → List String
  | [] => []
  | x :: xs => jsonStringify x :: stringifyElems xs

def stringifyMembers : List (String × JVal) → List String
  | [] => []
  | (k, .undef) :: fs => stringifyMembers fs
  | (k, v) :: fs => (jsonQuote k ++ ":" ++ jsonStringify v) :: stringifyMembers fs

end

def isWsCh (c : Char) : Bool :=
  c = ' ' || c = tabCh || c = newlineCh || c = carriageCh

def skipWs (cs : List Char) : List Char := cs.dropWhile isWsCh

def hexVal (c : Char) : Option Nat :=
  if 48 ≤ c.toNat ∧ c.toNat ≤ 57 then some (c.toNat - 48)
  else if 97 ≤ c.toNat ∧ c.toNat ≤ 102 then some (c.toNat - 87)
  else if 65 ≤ c.toNat ∧ c.toNat ≤ 70 then some (c.toNat - 55)
  else none

/-! Parses the body of a JSON string literal (after the opening quote),
returning the decoded characters and the remaining input; backslash
escapes are handled by `parseStrEsc` / `parseStrHex`. -/

mutual

def parseStrBody : List Char → Except String (List Char × List Char)
  | [] => .error "Unterminated string in JSON"
  | c :: rest =>
    if c = quoteCh then .ok ([], rest)
    else if c = backslashCh then parseStrEsc rest
    else
      match parseStrBody rest with
      | .ok (body, rem) => .ok (c :: body, rem)
      | .error msg => .error msg

def parseStrEsc : List Char → Except String (List Char × List Char)
  | [] => .error "Unterminated string in JSON"
  | e :: rest2 =>
    if e = 'u' then parseStrHex rest2
    else
      match
        (if e = quoteCh then some quoteCh
         else if e = backslashCh then some backslashCh
         else if e = '/' then some '/'
         else if e = 'n' then some newlineCh
         else if e = 'r' then some carriageCh
         else if e = 't' then some tabCh
         else if e = 'b' then some (Char.ofNat 8)
         else if e = 'f' then some (Char.ofNat 12)
         else none) with
      | some d =>
        match parseStrBody rest2 with
        | .ok (body, rem) => .ok (d :: body, rem)
        | .error msg => .error msg
      | none => .error "Bad escape in JSON"

def parseStrHex : List Char → Except String (List Char × List Char)
  | h1 :: h2 :: h3 :: h4 :: rest3 =>
    match hexVal h1, hexVal h2, hexVal h3, hexVal h4 with
    | some v1, some v2, some v3, some v4 =>
      match parseStrBody rest3 with
      | .ok (body, rem) =>
        .ok (Char.ofNat (v1 * 4096 + v2 * 256 + v3 * 16 + v4) :: body, rem)
      | .error msg => .error msg
    | _, _, _, _ => .error "Bad Unicode escape in JSON"
  | _ => .error "Bad Unicode escape in JSON"

end

/-- Parses a JSON number (integral only in this model). -/
def parseNum (cs : List Char) : Except String (Int × List Char) :=
  let (neg, cs1) :=
    match cs with
    | c :: rest => if c = '-' then (true, rest) else (false, cs)
    | [] => (false, cs)
  let digits := cs1.takeWhile isDigitCh
  let rest := cs1.dropWhile isDigitCh
  if digits = [] then .error "Unexpected token in JSON"
  else
    let v : Int := Int.ofNat (digitsVal 0 digits)
    .ok (if neg then -v else v, rest)

def expectLit (lit : List Char) (cs : List Char) : Except String (List Char) :=
  if cs.take lit.length = lit then .ok (cs.drop lit.length)
  else .error "Unexpected token in JSON"

mutual

/-- Model of `JSON.parse` (recursive descent; `fuel` dominates the
nesting depth and is instantiated with the input length). -/
def parseJ : Nat → List Char → Except String (JVal × List Char)
  | 0, _ => .error "JSON too deeply nested"
  | fuel + 1, cs =>
    match skipWs cs with
    | [] => .error "Unexpected end of JSON input"
    | c :: rest =>
      if c = 'n' then (expectLit ['u', 'l', 'l'] rest).map (fun r => (.null, r))
      else if c = 't' then (expectLit ['r', 'u', 'e'] rest).map (fun r => (.bool true, r))
      else if c = 'f' then
        (expectLit ['a', 'l', 's', 'e'] rest).map (fun r => (.bool false, r))
      else if c = quoteCh then
        match parseStrBody rest with
        | .ok (body, rem) => .ok (.str (String.mk body), rem)
        | .error msg => .error msg
      else if c = '[' then
        match skipWs rest with
        | ']' :: rem => .ok (.arr [], rem)
        | _ => parseElems fuel rest []
      else if c = '\x7b' then
        match skipWs rest with
        | '\x7d' :: rem => .ok (.obj [], rem)
        | _ => parseMembers fuel rest []
      else parseNum (c :: rest) |>.map (fun p => (.num p.1, p.2))

/-- Parses `value (, value)* ]`, accumulating elements. -/
def parseElems : Nat → List Char → List JVal → Except String (JVal × List Char)
  | 0, _, _ => .error "JSON too deeply nested"
  | fuel + 1, cs, acc =>
    match parseJ fuel cs with
    | .error msg => .error msg
    | .ok (v, rest) =>
      match skipWs rest with
      | ',' :: rest2 => parseElems fuel rest2 (acc ++ [v])
      | ']' :: rest2 => .ok (.arr (acc ++ [v]), rest2)
      | _ => .error "Expected comma or bracket in JSON array"

/-- Parses `"key": value (, "key": value)* \x7d`, accumulating members
(a repeated key overwrites the earlier value, as in JavaScript). -/
def parseMembers : Nat → List Char → List (String × JVal) → Except String (JVal × List Char)
  | 0, _, _ => .error "JSON too deeply nested"
  | fuel + 1, cs, acc =>
    match skipWs cs with
    | c :: rest =>
      if c = quoteCh then
        match parseStrBody rest with
        | .error msg => .error msg
        | .ok (key, rest2) =>
          match skipWs rest2 with
          | ':' :: rest3 =>
            match parseJ fuel rest3 with
            | .error msg => .error msg
            | .ok (v, rest4) =>
              match skipWs rest4 with
              | ',' :: rest5 => parseMembers fuel rest5 (objSet acc (String.mk key) v)
              | '\x7d' :: rest5 => .ok (.obj (objSet acc (String.mk key) v), rest5)
              | _ => .error "Expected comma or brace in JSON object"
          | _ => .error "Expected colon in JSON object"
      else .error "Expected string key in JSON object"
    | [] => .error "Unexpected end of JSON input"

end

/-- Model of `JSON.parse`: parse one value, then require only trailing
whitespace. -/
def parseJSON (s : String) : Except String JVal :=
  match parseJ (s.data.length + 1) s.data with
  | .error msg => .error msg
  | .ok (v, rest) =>
    if skipWs rest = [] then .ok v else .error "Unexpected token after JSON value"

/-! ## Key derivation (src/crypto/keyDerivation.ts)

`deriveKey` delegates to the platform WebCrypto PBKDF2. Modelled from the
spec: PBKDF2 is a deterministic, salted password-based KDF; its output
bytes are modelled by a concrete deterministic mixing function (the
distribution of the output is irrelevant to every claim, only determinism
and the declared parameters are). -/

inductive HashAlg where
  | SHA256
deriving DecidableEq, Repr

/-- A WebCrypto `CryptoKey` for AES-GCM: the underlying key material. -/
structure CryptoKey where
  keyBytes : List Nat
deriving DecidableEq, Repr

def fnvFold (acc n : Nat) : Nat := (acc * 16777619 + n) % 4294967296

/-- Modelled from the spec: one output byte of the platform PBKDF2 stream
(deterministic in all of its inputs). -/
def pbkdf2Byte (hash : HashAlg) (iterations : Nat) (password : String) (salt : List Nat)
    (i : Nat) : Nat :=
  let h0 := fnvFold (fnvFold 2166136261 iterations) i
  let h1 := password.data.foldl (fun a c => fnvFold a c.toNat) h0
  let h2 := salt.foldl fnvFold h1
  match hash with
  | .SHA256 => h2 % 256

/-- Modelled from the spec: the platform `crypto.subtle.deriveKey` with
PBKDF2, producing an AES key of `lengthBits` bits. -/
def pbkdf2Key (hash : HashAlg) (iterations : Nat) (lengthBits : Nat)
    (password : String) (salt : List Nat) : CryptoKey :=
  ⟨(List.range (lengthBits / 8)).map (pbkdf2Byte hash iterations password salt)⟩

/-- The PBKDF2 iteration count passed by `deriveKey`
(src/crypto/keyDerivation.ts, `iterations: 100000`). -/
def deriveKeyIterations : Nat := 100000

/-- `deriveKey` (src/crypto/keyDerivation.ts): PBKDF2 over the UTF-8
password and the salt, SHA-256, 100 000 iterations, deriving a 256-bit
AES-GCM key. -/
def deriveKey (password : String) (salt : List Nat) : CryptoKey :=
  pbkdf2Key HashAlg.SHA256 deriveKeyIterations 256 password salt

/-! ## Authenticated cipher (src/crypto/encryption.ts and the
`crypto-aes-gcm` package)

`encryptVault`/`decryptVault` delegate to `aes_gcm_encrypt`/
`aes_gcm_decrypt` of the external `crypto-aes-gcm` package (AES-256-GCM
with a PBKDF2-derived key; salt and nonce embedded in the opaque output
string). Modelled from the spec (§4.2): an AEAD whose decryption succeeds
exactly on untampered outputs of encryption under the same password. The
ciphertext is an opaque string; the fresh random nonce is an explicit
parameter. The GCM authentication tag is modelled as a 7-digit
authenticator appended to the blob, a checksum of the body modulo
`tagMod` = 2^21; `tagMod` exceeds every Unicode code point, so changing
any single byte of the blob changes the checksum and the tag check in
`aes_gcm_decrypt` fails, as GCM authentication does. -/

def sepCh : Char := ':'

/-- Body of the ciphertext blob: an injective rendering of (password,
plaintext, nonce). Confidentiality is not modelled (no claim needs it). -/
def blobBody (plainText password : String) (nonce : Nat) : List Char :=
  'g' :: 'c' :: 'm' :: '1' :: ':' ::
    (toDigits password.data.length ++ ':' :: (password.data ++ ':' ::
      (toDigits plainText.data.length ++ ':' :: (plainText.data ++ ':' ::
        toDigits nonce))))

/-- Modulus of the authenticator checksum: 2^21, larger than any Unicode
code point (`0x110000`), so two character codes are congruent modulo
`tagMod` only when equal. -/
def tagMod : Nat := 2097152

/-- Checksum of a character list: the sum of its code points. -/
def sumChars (cs : List Char) : Nat := (cs.map Char.toNat).sum

/-- Authentication tag of a blob body: its checksum modulo `tagMod`,
zero-padded to 7 decimal digits. -/
def blobTag (body : List Char) : List Char := padNat 7 (sumChars body % tagMod)

/-- Opaque authenticated ciphertext blob: the body followed by its
7-digit tag. `aes_gcm_decrypt` succeeds only on exact images. -/
def aes_gcm_encrypt (plainText password : String) (nonce : Nat) : String :=
  String.mk (blobBody plainText password nonce ++
    blobTag (blobBody plainText password nonce))

/-- Reads `<digits> : <that many raw chars> :` (the digit run must be the
canonical rendering of its value, keeping the blob coding injective). -/
def readLenPrefixed (cs : List Char) : Option (List Char × List Char) :=
  let digits := cs.takeWhile isDigitCh
  let rest := cs.dropWhile isDigitCh
  if digits = toDigits (digitsVal 0 digits) then
    match rest with
    | ':' :: rest2 =>
      let n := digitsVal 0 digits
      if n ≤ rest2.length then
        match rest2.drop n with
        | ':' :: rest3 => some (rest2.take n, rest3)
        | _ => none
      else none
    | _ => none
  else none

def parseBlob (cs : List Char) : Option (String × String × Nat) :=
  match expectLit ['g', 'c', 'm', '1', ':'] cs with
  | .error _ => none
  | .ok cs1 =>
    match readLenPrefixed cs1 with
    | none => none
    | some (pw, cs2) =>
      match readLenPrefixed cs2 with
      | none => none
      | some (pt, cs3) =>
        if cs3 = toDigits (digitsVal 0 cs3) then
          some (String.mk pw, String.mk pt, digitsVal 0 cs3)
        else none

/-- Decryption first verifies the authentication tag (the last 7
characters must be the tag of everything before them), then parses the
body and compares the password; any failure is the AEAD
`OperationError`. -/
def aes_gcm_decrypt (cipherText password : String) : Except String String :=
  if cipherText.data.drop (cipherText.data.length - 7)
      = blobTag (cipherText.data.take (cipherText.data.length - 7)) then
    match parseBlob (cipherText.data.take (cipherText.data.length - 7)) with
    | some (pw, pt, _) =>
      if password = pw then .ok pt else .error "OperationError"
    | none => .error "OperationError"
  else .error "OperationError"

/-- `encryptVault` (src/crypto/encryption.ts). -/
def encryptVault (plainText password : String) (nonce : Nat) : String :=
  aes_gcm_encrypt plainText password nonce

/-- `decryptVault` (src/crypto/encryption.ts). -/
def decryptVault (cipherText password : String) : Except String String :=
  aes_gcm_decrypt cipherText password

/-! ## Validation schemas (src/schemas/entrySchemas.ts,
src/schemas/importExportSchemas.ts) and the validator
(src/validation/validator.ts)

zod is a third-party library; the schema combinators it provides
(`z.object`, `z.string().min`, `.optional()`, `.default()`, `z.date()`,
`z.nativeEnum`, `.refine`) are modelled by direct checks over `JVal`.
The platform `new URL` parser behind `z.string().url()` and the zod
e-mail regular expression are modelled by simplified validity checks
(`urlValid`, `emailValid`); no claim depends on their exact languages. -/

structure ValidationError where
  field : String
  message : String
  code : String
deriving DecidableEq, Repr

structure ValidationResult where
  isValid : Bool
  errors : List ValidationError
  warnings : List ValidationError
deriving DecidableEq, Repr

/-- Structural prefix test on character lists. -/
def strStartsWith : List Char → List Char → Bool
  | [], _ => true
  | _ :: _, [] => false
  | p :: ps, c :: cs => p = c && strStartsWith ps cs

/-- `String.prototype.startsWith`. -/
def jsStartsWith (s pre : String) : Bool := strStartsWith pre.data s.data

/-- Splits on the (nonempty) separator, left to right; `fuel`
(structural, at least the input length) dominates the number of
characters consumed. -/
def splitOnF (sep : List Char) : Nat → List Char → List Char → List (List Char)
  | _, [], cur => [cur.reverse]
  | 0, cs, cur => [cur.reverse ++ cs]
  | fuel + 1, c :: cs, cur =>
    if strStartsWith sep (c :: cs) then
      cur.reverse :: splitOnF sep fuel (List.drop (sep.length - 1) cs) []
    else splitOnF sep fuel cs (c :: cur)

/-- `String.prototype.split` with a nonempty literal separator. -/
def jsSplitOn (s sep : String) : List String :=
  if sep = "" then [s]
  else (splitOnF sep.data s.data.length s.data []).map String.mk

/-- `String.prototype.trim` (the whitespace forms arising here). -/
def jsTrim (s : String) : String :=
  String.mk (((s.data.dropWhile isWsCh).reverse.dropWhile isWsCh).reverse)

/-- Modelled platform primitive: zod `.email()` acceptance (single `@`
with nonempty local part and a dotted, nonempty domain; no spaces). -/
def emailValid (s : String) : Bool :=
  match jsSplitOn s "@" with
  | [local0, domain] =>
    local0 ≠ "" && domain ≠ "" && (jsSplitOn domain ".").length ≥ 2 &&
      (jsSplitOn domain ".").all (· ≠ "") && !s.data.any (· = ' ')
  | _ => false

/-- Modelled platform primitive: WHATWG `new URL` acceptance as used by
zod `.url()` (a nonempty scheme followed by `://` and a nonempty rest). -/
def urlValid (s : String) : Bool :=
  match jsSplitOn s "://" with
  | [scheme, rest] => scheme ≠ "" && rest ≠ "" && scheme.data.all (fun c => c.isAlpha)
  | _ => false

/-- `EntryCategory` enum values (src/types). -/
def entryCategoryValues : List String :=
  ["login", "secure_note", "credit_card", "identity", "software_license",
   "bank_account", "other"]

/-- `FieldType` enum values (src/types). -/
def fieldTypeValues : List String :=
  ["text", "password", "email", "url", "number", "date", "textarea"]

/-- Modelled: JavaScript `!isNaN(Number(s))` (used by the custom-field
`number` refinement): empty/whitespace coerces to 0; otherwise an
optional sign followed by digits with at most one dot. -/
def numberCoercible (s : String) : Bool :=
  let t := jsTrim s
  if t = "" then true
  else
    let t2 := match t.data with
      | '-' :: rest => rest
      | '+' :: rest => rest
      | l => l
    t2 ≠ [] && t2.all (fun c => isDigitCh c || c = '.') &&
      (t2.filter (· = '.')).length ≤ 1 && t2.any isDigitCh

def vErr (f m c : String) : ValidationError := ⟨f, m, c⟩

/-- `z.string().min(1)` on a required field. -/
def checkRequiredMinString (fields : List (String × JVal)) (name : String) : List ValidationError :=
  match objGet fields name with
  | .str s => if s = "" then [vErr name (name ++ " must contain at least 1 character") "TOO_SMALL"] else []
  | .undef => [vErr name "Required" "INVALID_TYPE"]
  | _ => [vErr name ("Expected string for " ++ name) "INVALID_TYPE"]

/-- `z.string().optional()`. -/
def checkOptionalString (fields : List (String × JVal)) (name : String) : List ValidationError :=
  match objGet fields name with
  | .str _ => []
  | .undef => []
  | _ => [vErr name ("Expected string for " ++ name) "INVALID_TYPE"]

/-- The `customFieldSchema` object check (entrySchemas.ts): id/name
min-1 strings, string value, `FieldType` type, boolean `hidden` with
default, plus the type-specific value refinement. -/
def customFieldErrors (v : JVal) : List ValidationError :=
  match v with
  | .obj fs =>
    checkRequiredMinString fs "id" ++
    checkRequiredMinString fs "name" ++
    (match objGet fs "value" with
     | .str _ => []
     | _ => [vErr "value" "Expected string for value" "INVALID_TYPE"]) ++
    (match objGet fs "type" with
     | .str t => if fieldTypeValues.contains t then [] else
         [vErr "type" "Invalid custom field type" "INVALID_ENUM_VALUE"]
     | _ => [vErr "type" "Invalid custom field type" "INVALID_TYPE"]) ++
    (match objGet fs "hidden" with
     | .bool _ => []
     | .undef => []
     | _ => [vErr "hidden" "Expected boolean for hidden" "INVALID_TYPE"]) ++
    (match objGet fs "type", objGet fs "value" with
     | .str t, .str s =>
       if t = "email" && s ≠ "" then
         (if emailValid s then [] else
           [vErr "value" "Invalid value for the specified field type" "CUSTOM"])
       else if t = "url" && s ≠ "" then
         (if urlValid s then [] else
           [vErr "value" "Invalid value for the specified field type" "CUSTOM"])
       else if t = "number" && s ≠ "" then
         (if numberCoercible s then [] else
           [vErr "value" "Invalid value for the specified field type" "CUSTOM"])
       else []
     | _, _ => [])
  | _ => [vErr "" "Expected object" "INVALID_TYPE"]

/-- The `usernameSchema` refinement: an optional string; a value
containing `@` must pass the e-mail check. -/
def usernameErrors (v : JVal) : List ValidationError :=
  match v with
  | .undef => []
  | .str s =>
    if s.data.contains '@' && !emailValid s then
      [vErr "username" "Username appears to be an email but format is invalid" "CUSTOM"]
    else []
  | _ => [vErr "username" "Expected string for username" "INVALID_TYPE"]

/-- The `urlSchema` field check: `z.string().url().optional()`. -/
def urlFieldErrors (v : JVal) : List ValidationError :=
  match v with
  | .undef => []
  | .str s => if urlValid s then [] else [vErr "url" "Invalid URL format" "INVALID_STRING"]
  | _ => [vErr "url" "Expected string for url" "INVALID_TYPE"]

/-- `z.date()`: requires an actual `Date` instance holding a valid
instant. -/
def dateFieldErrors (name : String) (v : JVal) : List ValidationError :=
  match v with
  | .date (.valid ms) =>
    if ms ≤ maxDateMs then [] else [vErr name ("Valid " ++ name ++ " is required") "INVALID_DATE"]
  | .date .invalid => [vErr name ("Valid " ++ name ++ " is required") "INVALID_DATE"]
  | .undef => [vErr name (name ++ " is required") "INVALID_TYPE"]
  | _ => [vErr name ("Valid " ++ name ++ " is required") "INVALID_TYPE"]

def tagsErrors (v : JVal) : List ValidationError :=
  match v with
  | .undef => []
  | .arr xs =>
    if xs.all (fun x => match x with | .str _ => true | _ => false) then []
    else [vErr "tags" "Expected array of strings for tags" "INVALID_TYPE"]
  | _ => [vErr "tags" "Expected array for tags" "INVALID_TYPE"]

def favoriteErrors (v : JVal) : List ValidationError :=
  match v with
  | .undef => []
  | .bool _ => []
  | _ => [vErr "favorite" "Expected boolean for favorite" "INVALID_TYPE"]

def categoryErrors (v : JVal) : List ValidationError :=
  match v with
  | .undef => []
  | .str s =>
    if entryCategoryValues.contains s then []
    else [vErr "category" "Invalid entry category" "INVALID_ENUM_VALUE"]
  | _ => [vErr "category" "Invalid entry category" "INVALID_TYPE"]

def customFieldsErrors (v : JVal) : List ValidationError :=
  match v with
  | .undef => []
  | .arr xs => xs.foldr (fun x acc => customFieldErrors x ++ acc) []
  | _ => [vErr "customFields" "Expected array for customFields" "INVALID_TYPE"]

/-- `vaultEntrySchema.safeParse` (entrySchemas.ts): the full entry
schema, including required `id` and `Date`-typed timestamps. -/
def vaultEntrySchemaErrors (entry : JVal) : List ValidationError :=
  match entry with
  | .obj fs =>
    checkRequiredMinString fs "id" ++
    checkRequiredMinString fs "title" ++
    usernameErrors (objGet fs "username") ++
    checkOptionalString fs "password" ++
    urlFieldErrors (objGet fs "url") ++
    checkOptionalString fs "notes" ++
    tagsErrors (objGet fs "tags") ++
    favoriteErrors (objGet fs "favorite") ++
    categoryErrors (objGet fs "category") ++
    customFieldsErrors (objGet fs "customFields") ++
    dateFieldErrors "createdAt" (objGet fs "createdAt") ++
    dateFieldErrors "updatedAt" (objGet fs "updatedAt")
  | _ => [vErr "" "Expected object" "INVALID_TYPE"]

/-- `createVaultEntrySchema.safeParse`: like the entry schema but with
no `id` and no timestamps. -/
def createVaultEntrySchemaErrors (data : JVal) : List ValidationError :=
  match data with
  | .obj fs =>
    checkRequiredMinString fs "title" ++
    usernameErrors (objGet fs "username") ++
    checkOptionalString fs "password" ++
    urlFieldErrors (objGet fs "url") ++
    checkOptionalString fs "notes" ++
    tagsErrors (objGet fs "tags") ++
    favoriteErrors (objGet fs "favorite") ++
    categoryErrors (objGet fs "category") ++
    customFieldsErrors (objGet fs "customFields")
  | _ => [vErr "" "Expected object" "INVALID_TYPE"]

/-- `extractPasswordWarnings` (validator.ts): strength warnings from the
`passwordStrengthSchema` refinements; never affect validity. -/
def passwordWarnings (v : JVal) : List ValidationError :=
  if !jsTruthy v then []
  else match v with
  | .str s =>
    (if s.data.length ≥ 8 then [] else
      [vErr "password" "Password should be at least 8 characters long" "WEAK_PASSWORD_LENGTH"]) ++
    (if s.data.any (fun c => 65 ≤ c.toNat && c.toNat ≤ 90) then [] else
      [vErr "password" "Password should contain at least one uppercase letter" "WEAK_PASSWORD_UPPERCASE"]) ++
    (if s.data.any (fun c => 97 ≤ c.toNat && c.toNat ≤ 122) then [] else
      [vErr "password" "Password should contain at least one lowercase letter" "WEAK_PASSWORD_LOWERCASE"]) ++
    (if s.data.any isDigitCh then [] else
      [vErr "password" "Password should contain at least one number" "WEAK_PASSWORD_NUMBER"]) ++
    (if s.data.any (fun c => !((65 ≤ c.toNat && c.toNat ≤ 90) ||
        (97 ≤ c.toNat && c.toNat ≤ 122) || isDigitCh c)) then [] else
      [vErr "password" "Password should contain at least one special character" "WEAK_PASSWORD_SPECIAL"])
  | _ => []

/-- `extractUsernameWarnings` (validator.ts). -/
def usernameWarnings (v : JVal) : List ValidationError :=
  match v with
  | .str s =>
    if jsTruthy (.str s) && s.data.contains '@' && !emailValid s then
      [vErr "username" "Username appears to be an email but format is invalid" "INVALID_EMAIL_FORMAT"]
    else []
  | _ => []

/-- `validateVaultEntry` (validator.ts). -/
def validateVaultEntry (entry : JVal) : ValidationResult :=
  let errors := vaultEntrySchemaErrors entry
  let warnings := passwordWarnings (jsGet entry "password") ++ usernameWarnings (jsGet entry "username")
  ⟨errors.length = 0, errors, warnings⟩

/-- `validateCreateVaultEntry` (validator.ts). -/
def validateCreateVaultEntry (data : JVal) : ValidationResult :=
  let errors := createVaultEntrySchemaErrors data
  let warnings := passwordWarnings (jsGet data "password") ++ usernameWarnings (jsGet data "username")
  ⟨errors.length = 0, errors, warnings⟩

/-- `validateCreateEntryData` (src/vault/entry.ts) simply delegates. -/
def validateCreateEntryData (data : JVal) : ValidationResult :=
  validateCreateVaultEntry data

/-- `vaultFileSchema.safeParse` success (importExportSchemas.ts):
`data`, `salt`, `iv`, `version` strings; optional `metadata` object with
`name`/`createdAt`/`lastModified` strings, numeric `entryCount`,
optional string `checksum`. -/
def vaultFileSchemaOk (v : JVal) : Bool :=
  match v with
  | .obj fs =>
    (match objGet fs "data" with | .str _ => true | _ => false) &&
    (match objGet fs "salt" with | .str _ => true | _ => false) &&
    (match objGet fs "iv" with | .str _ => true | _ => false) &&
    (match objGet fs "version" with | .str _ => true | _ => false) &&
    (match objGet fs "metadata" with
     | .undef => true
     | .obj ms =>
       (match objGet ms "name" with | .str _ => true | _ => false) &&
       (match objGet ms "createdAt" with | .str _ => true | _ => false) &&
       (match objGet ms "lastModified" with | .str _ => true | _ => false) &&
       (match objGet ms "entryCount" with | .num _ => true | _ => false) &&
       (match objGet ms "checksum" with | .str _ => true | .undef => true | _ => false)
     | _ => false)
  | _ => false

/-- `csvHeadersSchema.safeParse` success: the headers must include
`title`. -/
def csvHeadersOk (headers : List String) : Bool := headers.contains "title"

/-! ## Vault constants (src/types/core) -/

def VAULT_VERSION : String := "1.0.0"

/-- The declared allow-list of openable envelope versions
(src/types/core: `SUPPORTED_VERSIONS = ["1.0.0"]`). -/
def SUPPORTED_VERSIONS : List String := ["1.0.0"]

/-! ## Vault (de)serialization (src/vault/io/utils.ts) -/

/-- `new Date(string)` on the vault date strings: valid when the string
is canonical ISO, the `Invalid Date` value otherwise. -/
def newDateFromString (s : String) : JSDate :=
  match parseISO s with
  | some ms => .valid ms
  | none => .invalid

/-- The member call `v.toISOString()`: succeeds only on a valid `Date`
(a `RangeError` on an invalid date, a `TypeError` on a non-date). -/
def jsToISOStringCall (v : JVal) : Except String String :=
  match v with
  | .date (.valid ms) =>
    if ms ≤ maxDateMs then .ok (toISOString ms) else .error "RangeError: Invalid time value"
  | .date .invalid => .error "RangeError: Invalid time value"
  | _ => .error "TypeError: toISOString is not a function"

/-- Sets a property on a value (a no-op on non-objects, which silently
ignore property writes in non-strict JavaScript). -/
def jvSet (v : JVal) (k : String) (x : JVal) : JVal :=
  match v with
  | .obj fs => .obj (objSet fs k x)
  | _ => v

/-- `serializeVault` (src/vault/io/utils.ts): converts `Date`-valued
`createdAt`/`updatedAt` of the vault and of each entry to ISO strings
(`toISOString` throws on an invalid date, hence `Except`). -/
def serializeEntry (entry : JVal) : Except String JVal :=
  let se := JVal.obj (spreadFields entry)
  match jsGet se "createdAt" with
  | .date d =>
    match jsToISOStringCall (.date d) with
    | .error e => .error e
    | .ok s1 =>
      let se := jvSet se "createdAt" (.str s1)
      match jsGet se "updatedAt" with
      | .date d2 =>
        match jsToISOStringCall (.date d2) with
        | .error e => .error e
        | .ok s2 => .ok (jvSet se "updatedAt" (.str s2))
      | _ => .ok se
  | _ =>
    match jsGet se "updatedAt" with
    | .date d2 =>
      match jsToISOStringCall (.date d2) with
      | .error e => .error e
      | .ok s2 => .ok (jvSet se "updatedAt" (.str s2))
    | _ => .ok se

def serializeVault (vault : JVal) : Except String JVal :=
  let sv := JVal.obj (spreadFields vault)
  let step1 : Except String JVal :=
    match jsGet sv "createdAt" with
    | .date d =>
      match jsToISOStringCall (.date d) with
      | .error e => .error e
      | .ok s1 => .ok (jvSet sv "createdAt" (.str s1))
    | _ => .ok sv
  match step1 with
  | .error e => .error e
  | .ok sv =>
    let step2 : Except String JVal :=
      match jsGet sv "updatedAt" with
      | .date d =>
        match jsToISOStringCall (.date d) with
        | .error e => .error e
        | .ok s2 => .ok (jvSet sv "updatedAt" (.str s2))
      | _ => .ok sv
    match step2 with
    | .error e => .error e
    | .ok sv =>
      match jsGet sv "entries" with
      | .arr es =>
        match es.mapM serializeEntry with
        | .error e => .error e
        | .ok es2 => .ok (jvSet sv "entries" (.arr es2))
      | _ => .ok sv

/-- `deserializeVault` (src/vault/io/utils.ts): converts string-valued
`createdAt`/`updatedAt` of the vault and of each entry back to `Date`
objects (total; a malformed string becomes an invalid date, as
`new Date` never throws). -/
def deserializeEntry (entry : JVal) : JVal :=
  let de := JVal.obj (spreadFields entry)
  let de := match jsGet de "createdAt" with
    | .str s => jvSet de "createdAt" (.date (newDateFromString s))
    | _ => de
  match jsGet de "updatedAt" with
  | .str s => jvSet de "updatedAt" (.date (newDateFromString s))
  | _ => de

def deserializeVault (vault : JVal) : JVal :=
  let dv := JVal.obj (spreadFields vault)
  let dv := match jsGet dv "createdAt" with
    | .str s => jvSet dv "createdAt" (.date (newDateFromString s))
    | _ => dv
  let dv := match jsGet dv "updatedAt" with
    | .str s => jvSet dv "updatedAt" (.date (newDateFromString s))
    | _ => dv
  match jsGet dv "entries" with
  | .arr es => jvSet dv "entries" (.arr (es.map deserializeEntry))
  | _ => dv

/-! ## Checksum (src/vault/io/utils.ts, `calculateChecksum`) -/

/-- Coerces to a 32-bit signed integer (the `hash & hash` step). -/
def toInt32 (x : Int) : Int := (x + 2147483648) % 4294967296 - 2147483648

/-- Hex digits of `n`, most significant first; `fuel` (structural, at
least `n`) dominates the number of divisions by 16. -/
def hexDigitsF : Nat → Nat → List Char
  | 0, n => [hexDigitCh n]
  | fuel + 1, n =>
    if n < 16 then [hexDigitCh n]
    else hexDigitsF fuel (n / 16) ++ [hexDigitCh (n % 16)]

def hexDigits (n : Nat) : List Char := hexDigitsF n n

/-- `calculateChecksum`: the rolling `(hash << 5) - hash + charCode`
hash over UTF-16 code units (code points below 0x10000 in this model),
rendered as lowercase hex of the absolute value. -/
def calculateChecksum (data : String) : String :=
  let h := data.data.foldl (fun hash c => toInt32 (hash * 31 + c.toNat)) 0
  String.mk (hexDigits h.natAbs)

/-! ## CSV (src/vault/io/utils.ts) -/

/-! `escapeCSV` stringifies, then quotes and doubles internal quotes
when the value contains a comma, quote or line break; `jsToString` is
the JavaScript `String(...)` coercion. -/

mutual

def jsToString : JVal → String
  | .null => "null"
  | .undef => "undefined"
  | .bool b => if b then "true" else "false"
  | .num n => toString n
  | .str s => s
  | .date (.valid ms) => toISOString ms
  | .date .invalid => "Invalid Date"
  | .arr xs => String.intercalate "," (jsToStringElems xs)
  | .obj _ => "[object Object]"

def jsToStringElems : List JVal → List String
  | [] => []
  | x :: xs => jsToString x :: jsToStringElems xs

end

def needsCsvQuoting (s : String) : Bool :=
  s.data.any (fun c => c = quoteCh || c = ',' || c = newlineCh || c = carriageCh)

def escapeCSV (value : JVal) : String :=
  match value with
  | .null => ""
  | .undef => ""
  | v =>
    let strValue := jsToString v
    if needsCsvQuoting strValue then
      String.mk (quoteCh :: (strValue.data.foldr
        (fun c acc => if c = quoteCh then quoteCh :: quoteCh :: acc else c :: acc)
        [quoteCh]))
    else strValue

/-- `String(entry.favorite || false)`. -/
def favoriteCsvCell (v : JVal) : String :=
  if jsTruthy v then jsToString v else "false"

/-- `entry.category?.toString() || ""`. -/
def categoryCsvCell (v : JVal) : String :=
  match v with
  | .null => ""
  | .undef => ""
  | x => jsToString x

/-- `entry.tags ? entry.tags.join(";") : ""`. -/
def tagsCsvCell (v : JVal) : String :=
  if jsTruthy v then
    match v with
    | .arr xs => String.intercalate ";" (xs.map jsToString)
    | x => jsToString x
  else ""

/-- `value || ""` for the optional string cells. -/
def orEmpty (v : JVal) : JVal := if jsTruthy v then v else .str ""

def csvHeaderLine : String := "title,username,password,url,notes,category,tags,favorite"

def csvRow (entry : JVal) : String :=
  String.intercalate ","
    [escapeCSV (jsGet entry "title"),
     escapeCSV (orEmpty (jsGet entry "username")),
     escapeCSV (orEmpty (jsGet entry "password")),
     escapeCSV (orEmpty (jsGet entry "url")),
     escapeCSV (orEmpty (jsGet entry "notes")),
     escapeCSV (.str (categoryCsvCell (jsGet entry "category"))),
     escapeCSV (.str (tagsCsvCell (jsGet entry "tags"))),
     favoriteCsvCell (jsGet entry "favorite")]

/-- `convertVaultToCsv`: header line then one row per entry, each line
terminated by a newline. -/
def convertVaultToCsv (vault : JVal) : String :=
  let newline := String.mk [newlineCh]
  let rows :=
    match jsGet vault "entries" with
    | .arr es => es.foldl (fun acc e => acc ++ csvRow e ++ newline) ""
    | _ => ""
  csvHeaderLine ++ newline ++ rows

/-- `parseCSVLine`: splits on unquoted commas, with doubled quotes
inside a quoted section decoding to a literal quote. -/
def parseCSVLineAux : List Char → Bool → List Char → List String → List String
  | [], _, current, acc => acc ++ [String.mk current]
  | c :: rest, inQuotes, current, acc =>
    if c = quoteCh then
      match rest with
      | q :: rest2 =>
        if inQuotes && q = quoteCh then
          parseCSVLineAux rest2 inQuotes (current ++ [quoteCh]) acc
        else parseCSVLineAux (q :: rest2) (!inQuotes) current acc
      | [] => acc ++ [String.mk current]
    else if c = ',' && !inQuotes then
      parseCSVLineAux rest inQuotes [] (acc ++ [String.mk current])
    else parseCSVLineAux rest inQuotes (current ++ [c]) acc

def parseCSVLine (line : String) : List String :=
  parseCSVLineAux line.data false [] []

/-! ## Export (src/vault/io/utils.ts, `exportVault`) -/

/-! `jsonDeepCopy` is `JSON.parse(JSON.stringify(v))`, the deep-copy
idiom of `exportVault`, as the one-step semantic normalization it
performs: `Date` values become their ISO strings (via `toJSON`; an
invalid date becomes `null`), `undefined` object members are dropped,
`undefined` array elements become `null`. -/

mutual

def jsonDeepCopy : JVal → JVal
  | .null => .null
  | .undef => .null
  | .bool b => .bool b
  | .num n => .num n
  | .str s => .str s
  | .date (.valid ms) => .str (toISOString ms)
  | .date .invalid => .null
  | .arr xs => .arr (deepCopyElems xs)
  | .obj fs => .obj (deepCopyMembers fs)

def deepCopyElems : List JVal → List JVal
  | [] => []
  | x :: xs => jsonDeepCopy x :: deepCopyElems xs

def deepCopyMembers : List (String × JVal) → List (String × JVal)
  | [] => []
  | (_, .undef) :: fs => deepCopyMembers fs
  | (k, v) :: fs => (k, jsonDeepCopy v) :: deepCopyMembers fs

end

structure ExportOptions where
  format : String
  includePasswords : Bool
  categories : Option (List String)
  encrypted : Bool
deriving Repr

/-- The default `options` value of `exportVault`. -/
def defaultExportOptions : ExportOptions := ⟨"vault", true, none, true⟩

/-- Removes a property (the `const { password, ...rest } = entry`
idiom). -/
def objRemove (fields : List (String × JVal)) (k : String) : List (String × JVal) :=
  fields.filter (fun p => p.1 ≠ k)

def entryCategoryIs (cats : List String) (e : JVal) : Bool :=
  match jsGet e "category" with
  | .str c => cats.contains c
  | _ => false

/-- `exportVault` (src/vault/io/utils.ts lines 209-284): deep-copies the
vault, filters categories, optionally strips passwords, then branches on
the format. In the encrypted `"vault"` branch it serializes, encrypts,
and builds the `EncryptedVault` envelope; the envelope metadata reads
`vaultCopy.createdAt.toISOString()` on the deep copy, whose `createdAt`
is a string. The AEAD nonce is an explicit parameter. -/
def exportVault (vault : JVal) (masterPassword : Option String)
    (options : ExportOptions) (nonce : Nat) : Except String String :=
  let vaultCopy := jsonDeepCopy vault
  let vaultCopy :=
    match options.categories with
    | some cats =>
      if cats.length > 0 then
        match jsGet vaultCopy "entries" with
        | .arr es => jvSet vaultCopy "entries" (.arr (es.filter (entryCategoryIs cats)))
        | _ => vaultCopy
      else vaultCopy
    | none => vaultCopy
  let vaultCopy :=
    if !options.includePasswords then
      match jsGet vaultCopy "entries" with
      | .arr es => jvSet vaultCopy "entries" (.arr (es.map fun e =>
          match e with
          | .obj fs => .obj (objRemove fs "password")
          | x => x))
      | _ => vaultCopy
    else vaultCopy
  if options.format = "csv" then .ok (convertVaultToCsv vaultCopy)
  else if options.format = "json" then .ok (jsonStringify vaultCopy)
  else
    if (masterPassword = none ∨ masterPassword = some "") ∧ options.encrypted then
      .error "Master password is required for encrypted vault export"
    else
      match serializeVault vaultCopy with
      | .error e => .error e
      | .ok serializedVault =>
        if options.encrypted then
          let encrypted := encryptVault (jsonStringify serializedVault)
            (masterPassword.getD "") nonce
          match jsToISOStringCall (jsGet vaultCopy "createdAt") with
          | .error e => .error e
          | .ok createdAtStr =>
            match jsToISOStringCall (jsGet vaultCopy "updatedAt") with
            | .error e => .error e
            | .ok lastModifiedStr =>
              let entryCount : Int :=
                match jsGet vaultCopy "entries" with
                | .arr es => Int.ofNat es.length
                | _ => 0
              let encryptedVault : JVal := .obj
                [("data", .str encrypted),
                 ("salt", .str ""),
                 ("iv", .str ""),
                 ("version", .str VAULT_VERSION),
                 ("metadata", .obj
                   [("name", jsGet vaultCopy "name"),
                    ("createdAt", .str createdAtStr),
                    ("lastModified", .str lastModifiedStr),
                    ("entryCount", .num entryCount),
                    ("checksum", .str (calculateChecksum (jsonStringify serializedVault)))])]
              .ok (jsonStringify encryptedVault)
        else .ok (jsonStringify serializedVault)

/-! ## Import (src/vault/io/utils.ts, `importVault` and helpers)

The `onProgress` callback is a pure side channel (its invocations cannot
affect the result) and is omitted. `new Date()` and `generateId()` are
passed in as the explicit `now`/`newId` parameters. -/

structure ImportError where
  line : Option Nat
  message : String
  errData : List ValidationError
deriving DecidableEq, Repr

structure ImportResult where
  vault : JVal
  importedCount : Nat
  skippedCount : Nat
  errors : List ImportError

/-- The initial `result` value: `vault: {} as Vault` with zero counts. -/
def emptyImportResult : ImportResult := ⟨.obj [], 0, 0, []⟩

def mkImportFailure (msg : String) : ImportResult := ⟨.obj [], 0, 0, [⟨none, msg, []⟩]⟩

/-- The `for (let i = 0; i < entries.length; i++)` iteration space over a
dynamic `entries` value: arrays iterate their elements, strings their
characters; `null`/`undefined` throw a `TypeError` on the `.length`
read; other primitives have an `undefined` length, so the loop body
never runs; an object iterates up to its own numeric `length` property
(index reads beyond the array model return `undefined`). -/
def jsEnumEntries : JVal → Except String (List JVal)
  | .arr xs => .ok xs
  | .str s => .ok (s.data.map fun c => .str (String.mk [c]))
  | .null => .error "Cannot read properties of null (reading length)"
  | .undef => .error "Cannot read properties of undefined (reading length)"
  | .obj fs =>
    match objGet fs "length" with
    | .num n => .ok (List.replicate n.toNat .undef)
    | _ => .ok []
  | _ => .ok []

/-- `entry.title || "Unknown"` in the skip messages. -/
def entryTitleOr (e : JVal) : String :=
  let t := jsGet e "title"
  if jsTruthy t then jsToString t else "Unknown"

/-- The shared entry-validation loop of the importers: keeps the valid
entries, counts valid as imported and invalid as skipped, and reports an
error per invalid entry. `mkMsg` builds the per-entry message (the JSON
array importer uses the index, the others the title). -/
def processImportEntries (mkMsg : Nat → JVal → ImportError) :
    List JVal → Nat → (List JVal × Nat × Nat × List ImportError)
  | [], _ => ([], 0, 0, [])
  | e :: es, i =>
    let r := processImportEntries mkMsg es (i + 1)
    if (validateVaultEntry e).isValid then (e :: r.1, r.2.1 + 1, r.2.2.1, r.2.2.2)
    else (r.1, r.2.1, r.2.2.1 + 1, mkMsg i e :: r.2.2.2)

/-- The message used by `importEncryptedVault`/`importJsonVault` for an
invalid entry. -/
def invalidEntryMsg (_ : Nat) (e : JVal) : ImportError :=
  ⟨none, "Invalid entry: " ++ entryTitleOr e, (validateVaultEntry e).errors⟩

/-- The message used by the array branch of `importJsonVault`. -/
def invalidEntryAtIndexMsg (i : Nat) (e : JVal) : ImportError :=
  ⟨none, "Invalid entry at index " ++ String.mk (toDigits i), (validateVaultEntry e).errors⟩

/-- `importEncryptedVault` (src/vault/io/utils.ts lines 488-571),
instrumented with whether any cryptographic operation was attempted
(second component). Validation (`vaultFileSchema`) runs strictly before
the password check, which runs strictly before decryption. The catch-all
turns any thrown error into a `Decryption failed:` entry. -/
def importEncryptedVaultI (data : String) (masterPassword : Option String) :
    ImportResult × Bool :=
  match parseJSON data with
  | .error e => (mkImportFailure ("Decryption failed: " ++ e), false)
  | .ok parsedData =>
    if !vaultFileSchemaOk parsedData then
      (mkImportFailure "Invalid vault file format", false)
    else if masterPassword = none ∨ masterPassword = some "" then
      (mkImportFailure "Master password is required for encrypted vault import", false)
    else
      let encData := match jsGet parsedData "data" with
        | .str s => s
        | _ => ""
      match decryptVault encData (masterPassword.getD "") with
      | .error e => (mkImportFailure ("Decryption failed: " ++ e), true)
      | .ok decrypted =>
        match parseJSON decrypted with
        | .error e => (mkImportFailure ("Decryption failed: " ++ e), true)
        | .ok vaultData =>
          let deserializedVault := deserializeVault vaultData
          match jsEnumEntries (jsGet deserializedVault "entries") with
          | .error e => (mkImportFailure ("Decryption failed: " ++ e), true)
          | .ok entriesList =>
            let (validEntries, importedCount, skippedCount, errs) :=
              processImportEntries invalidEntryMsg entriesList 0
            (⟨jvSet deserializedVault "entries" (.arr validEntries),
              importedCount, skippedCount, errs⟩, true)

/-- `importEncryptedVault` proper. -/
def importEncryptedVault (data : String) (masterPassword : Option String) : ImportResult :=
  (importEncryptedVaultI data masterPassword).1

/-- The non-array branch of `importJsonVault`: a whole vault object is
deserialized and its entries validated in place. -/
def importJsonFallback (parsedData : JVal) : ImportResult :=
  let deserializedVault := deserializeVault parsedData
  match jsEnumEntries (jsGet deserializedVault "entries") with
  | .error e => mkImportFailure ("JSON parsing failed: " ++ e)
  | .ok entriesList =>
    let (validEntries, importedCount, skippedCount, errs) :=
      processImportEntries invalidEntryMsg entriesList 0
    ⟨jvSet deserializedVault "entries" (.arr validEntries),
      importedCount, skippedCount, errs⟩

/-- `importJsonVault` (src/vault/io/utils.ts lines 576-680). -/
def importJsonVault (data : String) (now : Nat) (newId : String) : ImportResult :=
  match parseJSON data with
  | .error e => mkImportFailure ("JSON parsing failed: " ++ e)
  | .ok parsedData =>
    match parsedData with
    | .arr entries =>
      let (validEntries, importedCount, skippedCount, errs) :=
        processImportEntries invalidEntryAtIndexMsg entries 0
      ⟨.obj [("id", .str newId), ("name", .str "Imported Vault"),
         ("entries", .arr validEntries), ("createdAt", .date (.valid now)),
         ("updatedAt", .date (.valid now)), ("version", .str VAULT_VERSION)],
       importedCount, skippedCount, errs⟩
    | _ => importJsonFallback parsedData

/-- Splits on `/\r?\n/`: at each newline, also consuming one carriage
return immediately before it. -/
def splitLinesAux : List Char → List Char → List String → List String
  | [], cur, acc => acc ++ [String.mk cur.reverse]
  | c :: rest, cur, acc =>
    if c = newlineCh then
      let piece := match cur with
        | r :: cur2 => if r = carriageCh then cur2 else cur
        | [] => []
      splitLinesAux rest [] (acc ++ [String.mk piece.reverse])
    else splitLinesAux rest (c :: cur) acc

def splitLines (s : String) : List String := splitLinesAux s.data [] []

def apostrophe : String := String.mk [Char.ofNat 39]

/-- The csv headers-schema failure message
(`CSV must contain at least a 'title' column`). -/
def csvHeadersErrorMsg : String :=
  "CSV must contain at least a " ++ apostrophe ++ "title" ++ apostrophe ++ " column"

/-- One parsed CSV row turned into an entry object: fresh timestamps,
then one property per header, with `tags` split on `;` and trimmed
(when the cell is nonempty). -/
def csvRowToEntry (headers : List String) (values : List String) (now : Nat) : JVal :=
  let base : List (String × JVal) :=
    [("createdAt", .date (.valid now)), ("updatedAt", .date (.valid now))]
  .obj ((headers.zip values).foldl (fun fs p =>
    if p.1 = "tags" ∧ p.2 ≠ "" then
      objSet fs "tags" (.arr ((jsSplitOn p.2 ";").map fun t => .str (jsTrim t)))
    else objSet fs p.1 (.str p.2)) base)

/-- The per-row body of the CSV import loop. -/
def processCsvRows (headers : List String) (now : Nat) :
    List String → Nat → (List JVal × Nat × Nat × List ImportError)
  | [], _ => ([], 0, 0, [])
  | line :: rest, i =>
    let r := processCsvRows headers now rest (i + 1)
    if (parseCSVLine line).length ≠ headers.length then
      (r.1, r.2.1, r.2.2.1 + 1,
        ⟨some (i + 1), "Invalid CSV line: column count mismatch", []⟩ :: r.2.2.2)
    else
      let entry := csvRowToEntry headers (parseCSVLine line) now
      if (validateVaultEntry entry).isValid then (entry :: r.1, r.2.1 + 1, r.2.2.1, r.2.2.2)
      else (r.1, r.2.1, r.2.2.1 + 1,
        ⟨some (i + 1), "Invalid entry: " ++ entryTitleOr entry,
          (validateVaultEntry entry).errors⟩ :: r.2.2.2)

/-- `importCsvVault` (src/vault/io/utils.ts lines 685-813). -/
def importCsvVault (data : String) (now : Nat) (newId : String) : ImportResult :=
  let lines := (splitLines data).filter (fun line => (jsTrim line).length > 0)
  match lines with
  | [] => mkImportFailure "Empty CSV file"
  | headerLine :: rows =>
    let headers := (jsSplitOn headerLine ",").map jsTrim
    if !csvHeadersOk headers then mkImportFailure csvHeadersErrorMsg
    else
      let (entries, importedCount, skippedCount, errs) := processCsvRows headers now rows 1
      ⟨.obj [("id", .str newId), ("name", .str "Imported CSV Vault"),
         ("entries", .arr entries), ("createdAt", .date (.valid now)),
         ("updatedAt", .date (.valid now)), ("version", .str VAULT_VERSION)],
       importedCount, skippedCount, errs⟩

/-- `String.prototype.includes` over character lists. -/
def containsSub (needle : List Char) : List Char → Bool
  | [] => needle.isEmpty
  | c :: rest => decide ((c :: rest).take needle.length = needle) || containsSub needle rest

/-- `importVault` (src/vault/io/utils.ts lines 293-331): format sniffing
over the raw input, dispatch, and the catch-all that reports the
`Unsupported import format` throw in the result. -/
def importVault (data : String) (masterPassword : Option String) (now : Nat)
    (newId : String) : ImportResult :=
  if jsStartsWith data "\x7b" ∧
      containsSub (quoteCh :: 'd' :: 'a' :: 't' :: 'a' :: [quoteCh]) data.data ∧
      containsSub (quoteCh :: 'v' :: 'e' :: 'r' :: 's' :: 'i' :: 'o' :: 'n' :: [quoteCh]) data.data then
    importEncryptedVault data masterPassword
  else if jsStartsWith data "\x7b" ∨ jsStartsWith data "[" then
    importJsonVault data now newId
  else if data.data.contains ',' ∧ (data.data.contains newlineCh ∨ data.data.contains carriageCh) then
    importCsvVault data now newId
  else mkImportFailure "Import failed: Unsupported import format"

/-! ## Vault CRUD (src/vault/vault.ts, src/vault/entry.ts) -/

/-- `e.id === entryId` (strict equality against a string). -/
def jsStrEq (v : JVal) (s : String) : Bool :=
  match v with
  | .str t => t = s
  | _ => false

/-- `createEntry` (src/vault/entry.ts): generated id, provided fields
with `|| []` / `|| false` / `|| LOGIN` defaults, fresh timestamps. -/
def createEntry (now : Nat) (newId : String) (data : JVal) : JVal :=
  .obj
    [("id", .str newId),
     ("title", jsGet data "title"),
     ("username", jsGet data "username"),
     ("password", jsGet data "password"),
     ("url", jsGet data "url"),
     ("notes", jsGet data "notes"),
     ("tags", if jsTruthy (jsGet data "tags") then jsGet data "tags" else .arr []),
     ("favorite", if jsTruthy (jsGet data "favorite") then jsGet data "favorite" else .bool false),
     ("category", if jsTruthy (jsGet data "category") then jsGet data "category" else .str "login"),
     ("customFields",
       if jsTruthy (jsGet data "customFields") then jsGet data "customFields" else .arr []),
     ("createdAt", .date (.valid now)),
     ("updatedAt", .date (.valid now))]

/-- The entry array of a vault value (`vault.entries`). -/
def vaultEntries (vault : JVal) : List JVal :=
  match jsGet vault "entries" with
  | .arr xs => xs
  | _ => []

/-- `{...vault, entries, updatedAt}`. -/
def vaultWith (vault : JVal) (entries : List JVal) (updatedAt : JSDate) : JVal :=
  .obj (objSet (objSet (spreadFields vault) "entries" (.arr entries))
    "updatedAt" (.date updatedAt))

/-- `addEntry` (src/vault/vault.ts lines 39-64): validate the creation
data; on any validation error return the vault unchanged (with a `null`
entry), otherwise append the created entry and bump `updatedAt`. -/
def addEntry (vault : JVal) (entryData : JVal) (now : Nat) (newId : String) :
    JVal × JVal × ValidationResult :=
  let validation := validateCreateEntryData entryData
  if validation.errors.length > 0 then (vault, .null, validation)
  else
    let newEntry := createEntry now newId entryData
    (vaultWith vault (vaultEntries vault ++ [newEntry]) (.valid now), newEntry, validation)

/-- `{...originalEntry, ...updateData, id, createdAt, updatedAt}`. -/
def mergeEntryUpdate (originalEntry updateData : JVal) (now : Nat) : JVal :=
  let merged := (spreadFields updateData).foldl (fun fs p => objSet fs p.1 p.2)
    (spreadFields originalEntry)
  .obj (objSet (objSet (objSet merged "id" (jsGet originalEntry "id"))
    "createdAt" (jsGet originalEntry "createdAt"))
    "updatedAt" (.date (.valid (now + 1))))

/-- `updateEntry` (src/vault/vault.ts lines 73-134): locate the entry
(`ENTRY_NOT_FOUND` leaves the vault unchanged), merge the update with a
1 ms-bumped timestamp, validate the merged entry (failure leaves the
vault unchanged), otherwise replace it in place. -/
def updateEntry (vault : JVal) (entryId : String) (updateData : JVal) (now : Nat) :
    JVal × JVal × ValidationResult :=
  let entries := vaultEntries vault
  match entries.findIdx? (fun e => jsStrEq (jsGet e "id") entryId) with
  | none => (vault, .null, ⟨false, [⟨"id", "Entry not found", "ENTRY_NOT_FOUND"⟩], []⟩)
  | some entryIndex =>
    let originalEntry := entries.getD entryIndex .undef
    let updatedEntry := mergeEntryUpdate originalEntry updateData now
    let validation := validateCreateEntryData updatedEntry
    if validation.errors.length > 0 then (vault, .null, validation)
    else
      (vaultWith vault (entries.set entryIndex updatedEntry) (.valid (now + 1)),
        updatedEntry, validation)

/-- `deleteEntry` (src/vault/vault.ts lines 142-156): a missing id
returns the vault unchanged; otherwise all entries with that id are
filtered out and `updatedAt` bumped. -/
def deleteEntry (vault : JVal) (entryId : String) (now : Nat) : JVal :=
  let entries := vaultEntries vault
  match entries.findIdx? (fun e => jsStrEq (jsGet e "id") entryId) with
  | none => vault
  | some _ =>
    vaultWith vault (entries.filter (fun e => !jsStrEq (jsGet e "id") entryId)) (.valid now)

/-! ## Key export/import (keyDerivation.ts: `keyToString`, `stringToKey`)

`crypto.subtle.exportKey("jwk", key)` / `importKey("jwk", ...)` are
platform primitives, modelled from the WebCrypto specification: export
renders the raw AES key material as an unpadded base64url `k` member of
an `oct` JWK; import validates the JWK structure and key length and
reconstructs exactly that material, rejecting anything else with a
`DataError`. -/

def exportKeyJwk (key : CryptoKey) : JVal :=
  .obj
    [("alg", .str "A256GCM"),
     ("ext", .bool true),
     ("k", .str (String.mk (b64EncodeChunks b64CharUrl key.keyBytes))),
     ("key_ops", .arr [.str "encrypt", .str "decrypt"]),
     ("kty", .str "oct")]

def importKeyJwk (jwk : JVal) : Except String CryptoKey :=
  match jsGet jwk "kty", jsGet jwk "k" with
  | .str "oct", .str ks =>
    match b64DecodeChunks b64ValUrl ks.data with
    | some bytes =>
      if bytes.length = 32 ∨ bytes.length = 24 ∨ bytes.length = 16 then .ok ⟨bytes⟩
      else .error "DataError"
    | none => .error "DataError"
  | _, _ => .error "DataError"

/-- `keyToString` (src, key serialization): `btoa(JSON.stringify(jwk))`. -/
def keyToString (key : CryptoKey) : Except String String :=
  jsBtoa (jsonStringify (exportKeyJwk key))

/-- `stringToKey`: `atob`, `JSON.parse`, `importKey`, with every failure
wrapped in the `Failed to deserialize key:` error. -/
def stringToKey (keyString : String) : Except String CryptoKey :=
  match jsAtob keyString with
  | .error e => .error ("Failed to deserialize key: " ++ e)
  | .ok jwkString =>
    match parseJSON jwkString with
    | .error e => .error ("Failed to deserialize key: " ++ e)
    | .ok jwk =>
      match importKeyJwk jwk with
      | .error e => .error ("Failed to deserialize key: " ++ e)
      | .ok key => .ok key

/-- An encrypted-vault envelope whose `version` is `9.9.9`, not in
`SUPPORTED_VERSIONS`; its `data` field holds a well-formed sealing of an
empty vault under password `pw`. -/
def envV99 : String :=
  jsonStringify (.obj [("data", .str (encryptVault "\x7b\"entries\":[]\x7d" "pw" 7)),
    ("salt", .str ""), ("iv", .str ""), ("version", .str "9.9.9")])

/-- A well-formed vault value (`Date` timestamps, as produced by
`createVault`), used to exercise the encrypted export path. -/
def sampleVault : JVal :=
  .obj [("id", .str "v1"), ("name", .str "V"), ("entries", .arr []),
        ("createdAt", .date (.valid 1700000000000)),
        ("updatedAt", .date (.valid 1700000000000)),
        ("version", .str "1.0.0")]

/-- A vault holding a single entry with id `e1`, used to exercise the
merge-validation failure branch of `updateEntry`. -/
def c10Vault : JVal :=
  .obj [("id", .str "v2"), ("name", .str "V2"),
        ("entries", .arr [.obj [("id", .str "e1"), ("title", .str "T")]]),
        ("createdAt", .date (.valid 0)), ("updatedAt", .date (.valid 0)),
        ("version", .str "1.0.0")]

/-! Correctness of the CSV quoting against `parseCSVLine` (claim C8). -/

/-- The quoted body produced by `escapeCSV` for a value that needs
quoting: internal quotes doubled, with the closing quote appended. -/
def csvQuoteBody (cs : List Char) : List Char :=
  cs.foldr (fun c acc => if c = quoteCh then quoteCh :: quoteCh :: acc else c :: acc)
    [quoteCh]

/-- The CSV round-trip scenario entry: title `Entrée 1`, tags
`["test", "example"]`. -/
def csvEntry : JVal :=
  .obj [("id", .str "e1"), ("title", .str "Entrée 1"), ("username", .str "user1"),
        ("password", .str "pass1"),
        ("tags", .arr [.str "test", .str "example"]), ("favorite", .bool false),
        ("category", .str "login"),
        ("createdAt", .date (.valid 0)), ("updatedAt", .date (.valid 0))]

def csvScenario : String := convertVaultToCsv (.obj [("entries", .arr [csvEntry])])

/-- A vault entry with all-symbolic field values, in the shape produced
by the JSON deserializer (string scalar fields, string tags, boolean
favorite, `Date` timestamps). -/
def c8Entry (title username password url notes category : String) (tags : List String)
    (favorite : Bool) (cms ums : Nat) : JVal :=
  .obj [("id", .str "e1"), ("title", .str title),
        ("username", .str username), ("password", .str password),
        ("url", .str url), ("notes", .str notes),
        ("tags", .arr (tags.map JVal.str)), ("favorite", .bool favorite),
        ("category", .str category),
        ("createdAt", .date (.valid cms)), ("updatedAt", .date (.valid ums))]

/-- The number of entries enumerated from a deserialized vault value
(0 when the enumeration itself throws). -/
def entriesProcessedCount (v : JVal) : Nat :=
  match jsEnumEntries (jsGet (deserializeVault v) "entries") with
  | .error _ => 0
  | .ok entriesList => entriesList.length

/-- The number of entry records the encrypted-import path processes
(0 on every failure path, mirroring `importEncryptedVault`). -/
def encProcessedCount (data : String) (masterPassword : Option String) : Nat :=
  match parseJSON data with
  | .error _ => 0
  | .ok parsedData =>
    if !vaultFileSchemaOk parsedData then 0
    else if masterPassword = none ∨ masterPassword = some "" then 0
    else
      let encData := match jsGet parsedData "data" with
        | .str s => s
        | _ => ""
      match decryptVault encData (masterPassword.getD "") with
      | .error _ => 0
      | .ok decrypted =>
        match parseJSON decrypted with
        | .error _ => 0
        | .ok vaultData => entriesProcessedCount vaultData

/-- The number of entry records the JSON-import path processes. -/
def jsonProcessedCount (data : String) : Nat :=
  match parseJSON data with
  | .error _ => 0
  | .ok parsedData =>
    match parsedData with
    | .arr entries => entries.length
    | _ => entriesProcessedCount parsedData

/-- The number of data rows the CSV-import path processes. -/
def csvProcessedCount (data : String) : Nat :=
  match (splitLines data).filter (fun line => (jsTrim line).length > 0) with
  | [] => 0
  | headerLine :: rows =>
    if !csvHeadersOk ((jsSplitOn headerLine ",").map jsTrim) then 0
    else rows.length

/-- The number of entry records `importVault` processes on a given
input (0 whenever an import fails before reaching the entry loop). -/
def importProcessedCount (data : String) (masterPassword : Option String)
    (now : Nat) (newId : String) : Nat :=
  if jsStartsWith data "\x7b" ∧
      containsSub (quoteCh :: 'd' :: 'a' :: 't' :: 'a' :: [quoteCh]) data.data ∧
      containsSub (quoteCh :: 'v' :: 'e' :: 'r' :: 's' :: 'i' :: 'o' :: 'n' :: [quoteCh]) data.data then
    encProcessedCount data masterPassword
  else if jsStartsWith data "\x7b" ∨ jsStartsWith data "[" then
    jsonProcessedCount data
  else if data.data.contains ',' ∧
      (data.data.contains newlineCh ∨ data.data.contains carriageCh) then
    csvProcessedCount data
  else 0

/-- A timestamp field of well-formed shape: a valid in-range `Date`. -/
def validDateField : JVal → Bool
  | .date (.valid ms) => decide (ms ≤ maxDateMs)
  | _ => false

/-- An entry whose timestamps the serializer handles losslessly. -/
def entryShapeOk (e : JVal) : Bool :=
  match e with
  | .obj _ => validDateField (jsGet e "createdAt") && validDateField (jsGet e "updatedAt")
  | _ => false

/-- A vault whose own timestamps and whose entries are well-shaped. -/
def vaultShapeOk (v : JVal) : Bool :=
  match v with
  | .obj _ =>
    validDateField (jsGet v "createdAt") && validDateField (jsGet v "updatedAt") &&
    (match jsGet v "entries" with
     | .arr es => es.all entryShapeOk
     | _ => false)
  | _ => false

/-- The single fixed textual date format of the serialized form:
`toISOString` output for an in-range instant. -/
def isoTimestamp (v : JVal) : Prop :=
  ∃ ms, ms ≤ maxDateMs ∧ v = .str (toISOString ms)

/-- Both vault-level timestamps and all entry timestamps of a serialized
vault are in the fixed ISO format. -/
def stampsISO (sv : JVal) : Prop :=
  isoTimestamp (jsGet sv "createdAt") ∧ isoTimestamp (jsGet sv "updatedAt") ∧
    ∀ e ∈ vaultEntries sv, isoTimestamp (jsGet e "createdAt") ∧
      isoTimestamp (jsGet e "updatedAt")

/-- A well-shaped vault with one entry, for the C7 witness. -/
def c7Vault : JVal :=
  .obj [("id", .str "v7"), ("name", .str "V7"),
        ("entries", .arr [.obj [("id", .str "e1"), ("title", .str "T"),
          ("createdAt", .date (.valid 123)), ("updatedAt", .date (.valid 456))]]),
        ("createdAt", .date (.valid 1700000000000)),
        ("updatedAt", .date (.valid 1700000000123)),
        ("version", .str "1.0.0")]

/-! The JWK rendering produced by `JSON.stringify` on `exportKeyJwk`
output, and its parse (claim C6). -/

/-- The JWK text up to and including the opening quote of the `k`
value. -/
def jwkP1 : List Char := ("\x7b\"alg\":\"A256GCM\",\"ext\":true,\"k\":\"").data

/-- The JWK text after the closing quote of the `k` value. -/
def jwkP2 : List Char := (",\"key_ops\":[\"encrypt\",\"decrypt\"],\"kty\":\"oct\"\x7d").data

def jwkChars (ksData : List Char) : List Char :=
  jwkP1 ++ (ksData ++ (quoteCh :: jwkP2))

/-- The JWK value with the given `k`-field characters. -/
def jwkObj (ksData : List Char) : JVal :=
  .obj [("alg", .str "A256GCM"), ("ext", .bool true),
        ("k", .str (String.mk ksData)),
        ("key_ops", .arr [.str "encrypt", .str "decrypt"]), ("kty", .str "oct")]

/-- A concrete 32-byte key for exercising the round trip: byte values
0..31. -/
def c6Key : CryptoKey := ⟨List.range 32⟩

theorem daysInYear_pos (y : Nat) : 0 < daysInYear y := by
  unfold daysInYear; split <;> omega

theorem daysInMonthB_pos (leap : Bool) (m : Nat) : 0 < daysInMonthB leap m := by
  unfold daysInMonthB; split
  · split <;> omega
  · split <;> omega

theorem yearFromF_fuel (y d : Nat) : ∀ f g, d < f → d < g →
    yearFromF f y d = yearFromF g y d := by
  induction d using Nat.strong_induction_on generalizing y with
  | _ d ih =>
    intro f g hf hg
    obtain ⟨fp, rfl⟩ : ∃ fp, f = fp + 1 := ⟨f - 1, by omega⟩
    obtain ⟨gp, rfl⟩ : ∃ gp, g = gp + 1 := ⟨g - 1, by omega⟩
    simp only [yearFromF]
    split
    · rfl
    · rename_i h
      have hpos := daysInYear_pos y
      exact ih (d - daysInYear y) (by omega) (y + 1) fp gp (by omega) (by omega)

theorem yearFrom_eq (y d : Nat) : yearFrom y d =
    if d < daysInYear y then (y, d) else yearFrom (y + 1) (d - daysInYear y) := by
  unfold yearFrom
  simp only [yearFromF]
  split
  · rfl
  · rename_i h
    have hpos := daysInYear_pos y
    exact yearFromF_fuel (y + 1) (d - daysInYear y) d (d - daysInYear y + 1)
      (by omega) (by omega)

theorem monthFrom_eq (leap : Bool) (m d : Nat) : monthFrom leap m d =
    if 11 ≤ m then (m, d)
    else if d < daysInMonthB leap m then (m, d)
    else monthFrom leap (m + 1) (d - daysInMonthB leap m) := by
  unfold monthFrom
  by_cases h11 : 11 ≤ m
  · rw [if_pos h11]
    rcases Nat.lt_or_ge m 12 with hlt | hge
    · rw [show 12 - m = 0 + 1 from by omega]
      simp only [monthFromF]
      rw [if_pos h11]
    · rw [show 12 - m = 0 from by omega]
      rfl
  · rw [if_neg h11]
    rw [show 12 - m = (12 - (m + 1)) + 1 from by omega]
    simp only [monthFromF]
    rw [if_neg h11]

theorem yearFrom_correct (y d : Nat) :
    ∃ n, yearFrom y d = (y + n, d - yearSpan y n) ∧
      yearSpan y n ≤ d ∧ d - yearSpan y n < daysInYear (y + n) := by
  induction d using Nat.strong_induction_on generalizing y with
  | _ d ih =>
    rw [yearFrom_eq]
    split
    · exact ⟨0, by simpa [yearSpan], by simp [yearSpan], by simpa [yearSpan]⟩
    · rename_i h
      have hpos := daysInYear_pos y
      have hle : daysInYear y ≤ d := by omega
      obtain ⟨n, h1, h2, h3⟩ := ih (d - daysInYear y) (by omega) (y + 1)
      refine ⟨n + 1, ?_, ?_, ?_⟩
      · rw [h1, Prod.mk.injEq]
        refine ⟨by omega, ?_⟩
        simp only [yearSpan]; omega
      · simp only [yearSpan]; omega
      · have : y + 1 + n = y + (n + 1) := by omega
        rw [this] at h3
        simp only [yearSpan]
        have : d - (daysInYear y + yearSpan (y + 1) n)
            = d - daysInYear y - yearSpan (y + 1) n := by omega
        rw [this]
        exact h3

theorem monthSpanFrom_succ (leap : Bool) (m k : Nat) :
    monthSpanFrom leap m (k + 1) = daysInMonthB leap m + monthSpanFrom leap (m + 1) k := rfl

theorem monthSpanFrom_total (y : Nat) :
    monthSpanFrom (isLeap y) 0 12 = daysInYear y := by
  have h : ∀ b : Bool, monthSpanFrom b 0 12 = if b then 366 else 365 := by decide
  rw [h, daysInYear]

theorem monthFrom_correct (leap : Bool) :
    ∀ j m d, m + j ≤ 11 → d < monthSpanFrom leap m (j + 1) →
      ∃ k, k ≤ j ∧ monthFrom leap m d = (m + k, d - monthSpanFrom leap m k) ∧
        monthSpanFrom leap m k ≤ d ∧
        d - monthSpanFrom leap m k < daysInMonthB leap (m + k) := by
  intro j
  induction j with
  | zero =>
    intro m d hm hd
    rw [monthSpanFrom_succ] at hd
    simp only [monthSpanFrom, Nat.add_zero] at hd
    refine ⟨0, le_refl 0, ?_, by simp [monthSpanFrom], by simpa [monthSpanFrom]⟩
    by_cases h11 : 11 ≤ m
    · rw [monthFrom_eq, if_pos h11]
      simp [monthSpanFrom]
    · rw [monthFrom_eq, if_neg h11, if_pos hd]
      simp [monthSpanFrom]
  | succ j ih =>
    intro m d hm hd
    rw [monthFrom_eq, if_neg (by omega)]
    by_cases hlt : d < daysInMonthB leap m
    · rw [if_pos hlt]
      exact ⟨0, by omega, by simp [monthSpanFrom], by simp [monthSpanFrom],
        by simpa [monthSpanFrom]⟩
    · rw [if_neg hlt]
      have hd2 : d - daysInMonthB leap m < monthSpanFrom leap (m + 1) (j + 1) := by
        rw [monthSpanFrom_succ] at hd
        omega
      obtain ⟨k, hk, heq, hle, hlt2⟩ := ih (m + 1) (d - daysInMonthB leap m) (by omega) hd2
      refine ⟨k + 1, by omega, ?_, ?_, ?_⟩
      · rw [heq, Prod.mk.injEq]
        refine ⟨by omega, ?_⟩
        rw [monthSpanFrom_succ]
        omega
      · rw [monthSpanFrom_succ]; omega
      · rw [monthSpanFrom_succ]
        have : m + 1 + k = m + (k + 1) := by omega
        rw [this] at hlt2
        omega

theorem toDigitsF_small (f n : Nat) (h : n < 10) : toDigitsF f n = [digitChar n] := by
  cases f with
  | zero => rfl
  | succ f => simp only [toDigitsF]; rw [if_pos h]

theorem toDigitsF_fuel (n : Nat) : ∀ f g, n ≤ f → n ≤ g →
    toDigitsF f n = toDigitsF g n := by
  induction n using Nat.strong_induction_on with
  | _ n ih =>
    intro f g hf hg
    by_cases h10 : n < 10
    · rw [toDigitsF_small f n h10, toDigitsF_small g n h10]
    · obtain ⟨fp, rfl⟩ : ∃ fp, f = fp + 1 := ⟨f - 1, by omega⟩
      obtain ⟨gp, rfl⟩ : ∃ gp, g = gp + 1 := ⟨g - 1, by omega⟩
      simp only [toDigitsF]
      rw [if_neg h10, if_neg h10]
      congr 1
      exact ih (n / 10) (by omega) fp gp (by omega) (by omega)

theorem toDigits_eq (n : Nat) : toDigits n =
    if n < 10 then [digitChar n] else toDigits (n / 10) ++ [digitChar (n % 10)] := by
  unfold toDigits
  by_cases h10 : n < 10
  · rw [if_pos h10, toDigitsF_small n n h10]
  · obtain ⟨fp, hf⟩ : ∃ fp, n = fp + 1 := ⟨n - 1, by omega⟩
    rw [if_neg h10]
    rw [show toDigitsF n n = toDigitsF (fp + 1) n from by rw [← hf]]
    simp only [toDigitsF]
    rw [if_neg h10]
    congr 1
    exact toDigitsF_fuel (n / 10) fp (n / 10) (by omega) (le_refl _)

theorem digitsVal_nil (acc : Nat) : digitsVal acc [] = acc := rfl

theorem digitsVal_cons (acc : Nat) (c : Char) (cs : List Char) :
    digitsVal acc (c :: cs) = digitsVal (acc * 10 + (c.toNat - 48)) cs := rfl

theorem digitsVal_append (acc : Nat) (xs ys : List Char) :
    digitsVal acc (xs ++ ys) = digitsVal (digitsVal acc xs) ys := by
  induction xs generalizing acc with
  | nil => simp only [List.nil_append, digitsVal_nil]
  | cons c cs ih =>
    simp only [List.cons_append, digitsVal_cons]
    exact ih (acc * 10 + (c.toNat - 48))

theorem digitChar_toNat (n : Nat) (h : n < 10) :
    (digitChar n).toNat = 48 + n := by
  interval_cases n <;> decide

theorem digitChar_isDigit (n : Nat) (h : n < 10) : isDigitCh (digitChar n) = true := by
  interval_cases n <;> decide

theorem toDigits_digits (n : Nat) : ∀ c ∈ toDigits n, isDigitCh c = true := by
  induction n using Nat.strong_induction_on with
  | _ n ih =>
    rw [toDigits_eq]
    split
    · rename_i h
      intro c hc
      simp only [List.mem_singleton] at hc
      subst hc
      exact digitChar_isDigit n h
    · rename_i h
      intro c hc
      rw [List.mem_append] at hc
      rcases hc with hc | hc
      · exact ih (n / 10) (by omega) c hc
      · simp only [List.mem_singleton] at hc
        subst hc
        exact digitChar_isDigit (n % 10) (by omega)

theorem digitsVal_toDigits (n : Nat) :
    ∀ acc, digitsVal acc (toDigits n) = acc * 10 ^ (toDigits n).length + n := by
  induction n using Nat.strong_induction_on with
  | _ n ih =>
    intro acc
    rw [toDigits_eq]
    split
    · rename_i h
      simp only [digitsVal_cons, digitsVal_nil, List.length_singleton, pow_one]
      rw [digitChar_toNat n h]
      omega
    · rename_i h
      rw [digitsVal_append]
      rw [ih (n / 10) (by omega) acc]
      simp only [digitsVal_cons, digitsVal_nil, List.length_append, List.length_singleton]
      rw [digitChar_toNat (n % 10) (by omega)]
      rw [pow_succ]
      have : n = 10 * (n / 10) + n % 10 := (Nat.div_add_mod n 10).symm
      ring_nf
      omega

theorem toDigits_length_le (n : Nat) :
    ∀ w, 1 ≤ w → n < 10 ^ w → (toDigits n).length ≤ w := by
  induction n using Nat.strong_induction_on with
  | _ n ih =>
    intro w hw h
    rw [toDigits_eq]
    split
    · simpa using hw
    · rename_i hn
      have hw2 : 2 ≤ w := by
        by_contra hc
        have hw1 : w = 1 := by omega
        subst hw1
        simp at h
        omega
      have hms : 10 ^ w = 10 ^ (w - 1) * 10 := by
        rw [← pow_succ]
        congr 1
        omega
      have h1 : n / 10 < 10 ^ (w - 1) := by
        rw [hms] at h
        omega
      have := ih (n / 10) (by omega) (w - 1) (by omega) h1
      simp only [List.length_append, List.length_singleton]
      omega

theorem padNat_length (w n : Nat) (hw : 1 ≤ w) (h : n < 10 ^ w) :
    (padNat w n).length = w := by
  have := toDigits_length_le n w hw h
  simp only [padNat, List.length_append, List.length_replicate]
  omega

theorem padNat_digits (w n : Nat) : ∀ c ∈ padNat w n, isDigitCh c = true := by
  intro c hc
  simp only [padNat, List.mem_append] at hc
  rcases hc with hc | hc
  · rw [List.eq_of_mem_replicate hc]
    decide
  · exact toDigits_digits n c hc

theorem digitsVal_padNat (w n : Nat) : digitsVal 0 (padNat w n) = n := by
  simp only [padNat]
  rw [digitsVal_append]
  have hz : ∀ k, digitsVal 0 (List.replicate k '0') = 0 := by
    intro k
    induction k with
    | zero => rfl
    | succ k ih =>
      rw [List.replicate_succ, digitsVal_cons]
      simpa
  rw [hz]
  rw [digitsVal_toDigits n 0]
  simp

theorem readDigits_zero (acc : Nat) (cs : List Char) :
    readDigits acc 0 cs = some (acc, cs) := rfl

theorem readDigits_succ_cons (acc w : Nat) (c : Char) (cs : List Char) :
    readDigits acc (w + 1) (c :: cs) =
      if isDigitCh c then readDigits (acc * 10 + (c.toNat - 48)) w cs else none := rfl

theorem readDigits_exact (ds : List Char) (hd : ∀ c ∈ ds, isDigitCh c = true) :
    ∀ acc rest, readDigits acc ds.length (ds ++ rest) = some (digitsVal acc ds, rest) := by
  induction ds with
  | nil =>
    intro acc rest
    rw [List.length_nil, List.nil_append, readDigits_zero, digitsVal_nil]
  | cons c cs ih =>
    intro acc rest
    have hc : isDigitCh c = true := hd c (by simp)
    rw [List.length_cons, List.cons_append, readDigits_succ_cons, if_pos hc]
    rw [ih (fun x hx => hd x (by simp [hx])) _ rest]
    rw [digitsVal_cons]

theorem readDigits_padNat (w n : Nat) (hw : 1 ≤ w) (h : n < 10 ^ w) (rest : List Char) :
    readDigits 0 w (padNat w n ++ rest) = some (n, rest) := by
  have hlen := padNat_length w n hw h
  have := readDigits_exact (padNat w n) (padNat_digits w n) 0 rest
  rw [hlen] at this
  rw [this, digitsVal_padNat]

theorem expectCh_cons (c x : Char) (xs : List Char) :
    expectCh c (x :: xs) = if x = c then some xs else none := rfl

theorem readFields_fieldsChars :
    ∀ specs vals rest, fieldsOk specs vals →
      readFields specs (fieldsChars specs vals rest) = some (vals, rest) := by
  intro specs
  induction specs with
  | nil =>
    intro vals rest hok
    cases vals with
    | nil => rfl
    | cons v vs => exact absurd hok (by simp [fieldsOk])
  | cons sw specs ih =>
    intro vals rest hok
    obtain ⟨c, w⟩ := sw
    cases vals with
    | nil => exact absurd hok (by simp [fieldsOk])
    | cons v vs =>
      obtain ⟨⟨hw, hv⟩, hrest⟩ := hok
      show readFields ((c, w) :: specs) (c :: (padNat w v ++ fieldsChars specs vs rest))
        = some (v :: vs, rest)
      rw [readFields, expectCh_cons, if_pos rfl]
      dsimp only
      rw [readDigits_padNat w v hw hv]
      dsimp only
      rw [ih vs rest hrest]

theorem parseISOChars_cons (c : Char) (rest : List Char) :
    parseISOChars (c :: rest) =
      if c = '+' then
        match readDigits 0 6 rest with
        | some (yy, cs) => parseISOTail yy cs
        | none => none
      else
        match readDigits 0 4 (c :: rest) with
        | some (yy, cs) => parseISOTail yy cs
        | none => none := rfl

theorem yearSpan_ge (y : Nat) : ∀ n, 365 * n ≤ yearSpan y n := by
  intro n
  induction n generalizing y with
  | zero => simp [yearSpan]
  | succ n ih =>
    have h1 : 365 ≤ daysInYear y := by unfold daysInYear; split <;> omega
    have := ih (y + 1)
    simp only [yearSpan]
    omega

theorem toISOChars_eq (ms yy doy k dom : Nat)
    (h1 : yearFrom 1970 (ms / msPerDay) = (yy, doy))
    (h2 : monthFrom (isLeap yy) 0 doy = (k, dom)) :
    toISOChars ms = (if yy < 10000 then padNat 4 yy else '+' :: padNat 6 yy) ++
      isoTailChars (k + 1) (dom + 1) (ms % msPerDay / 3600000)
        (ms % msPerDay % 3600000 / 60000) (ms % msPerDay % 60000 / 1000)
        (ms % msPerDay % 1000) := by
  simp only [toISOChars, h1, h2]

theorem parseISOTail_run (yy k dom hh mi ss msp : Nat)
    (hk : k + 1 ≤ 12) (hdom : dom < daysInMonth yy k) (hyy : 1970 ≤ yy)
    (hh24 : hh < 24) (hmi : mi < 60) (hss : ss < 60) (hmsp : msp < 1000)
    (hmax : civilToDays yy k dom * msPerDay + hh * 3600000 + mi * 60000 +
      ss * 1000 + msp ≤ maxDateMs) :
    parseISOTail yy (isoTailChars (k + 1) (dom + 1) hh mi ss msp) =
      some (civilToDays yy k dom * msPerDay + hh * 3600000 + mi * 60000 +
        ss * 1000 + msp) := by
  have hdom31 : dom + 1 < 100 := by
    have : daysInMonth yy k ≤ 31 := by
      unfold daysInMonth daysInMonthB
      split
      · split <;> omega
      · split <;> omega
    omega
  have hrf := readFields_fieldsChars isoSpecs [k + 1, dom + 1, hh, mi, ss, msp] ['Z']
    (by
      refine ⟨⟨by omega, by omega⟩, ⟨by omega, by omega⟩, ⟨by omega, by omega⟩,
        ⟨by omega, by omega⟩, ⟨by omega, by omega⟩, ⟨by omega, by omega⟩, trivial⟩)
  rw [parseISOTail, show isoTailChars (k + 1) (dom + 1) hh mi ss msp
    = fieldsChars isoSpecs [k + 1, dom + 1, hh, mi, ss, msp] ['Z'] from rfl, hrf]
  dsimp only
  rw [if_pos rfl]
  rw [if_pos (by refine ⟨by omega, by omega, hyy, by omega, by simpa using hdom, hh24, hmi, hss⟩)]
  simp only [Nat.add_sub_cancel]
  rw [if_pos hmax]

/-- Parsing inverts printing: the canonical ISO rendering of any valid
timestamp parses back to exactly that timestamp (millisecond precision). -/
theorem parseISO_toISOString (ms : Nat) (h : ms ≤ maxDateMs) :
    parseISO (toISOString ms) = some ms := by
  obtain ⟨n, hyf, hyle, hylt⟩ := yearFrom_correct 1970 (ms / msPerDay)
  set yy := 1970 + n with hyy
  set doy := ms / msPerDay - yearSpan 1970 n with hdoy
  have hdoy12 : doy < monthSpanFrom (isLeap yy) 0 (11 + 1) := by
    rw [show (11 + 1 : Nat) = 12 from rfl, monthSpanFrom_total]
    exact hylt
  obtain ⟨k, hk, hmf, hmle, hmlt⟩ := monthFrom_correct (isLeap yy) 11 0 doy (by omega) hdoy12
  set dom := doy - monthSpanFrom (isLeap yy) 0 k with hdom
  simp only [Nat.zero_add] at hmf
  have hyybound : yy < 1000000 := by
    have h365 := yearSpan_ge 1970 n
    have hdays : ms / msPerDay ≤ 100000000 := by
      have h1 : ms / msPerDay ≤ maxDateMs / msPerDay := Nat.div_le_div_right h
      have h2 : maxDateMs / msPerDay = 100000000 := by norm_num [maxDateMs, msPerDay]
      omega
    omega
  have hdays_eq : civilToDays yy k dom = ms / msPerDay := by
    unfold civilToDays
    have hn : yy - 1970 = n := by omega
    rw [hn]
    omega
  have htlt : ms % msPerDay < msPerDay := Nat.mod_lt _ (by unfold msPerDay; omega)
  have hmspd : msPerDay = 86400000 := rfl
  have htail := parseISOTail_run yy k dom (ms % msPerDay / 3600000)
    (ms % msPerDay % 3600000 / 60000) (ms % msPerDay % 60000 / 1000)
    (ms % msPerDay % 1000)
    (by omega) (by simpa [daysInMonth] using hmlt) (by omega)
    (by rw [hmspd] at htlt ⊢; omega) (by omega) (by omega) (by omega)
    (by
      rw [hdays_eq]
      have hm := Nat.div_add_mod ms msPerDay
      rw [hmspd] at *
      omega)
  have hrecon : civilToDays yy k dom * msPerDay + ms % msPerDay / 3600000 * 3600000 +
      ms % msPerDay % 3600000 / 60000 * 60000 + ms % msPerDay % 60000 / 1000 * 1000 +
      ms % msPerDay % 1000 = ms := by
    rw [hdays_eq]
    have hm := Nat.div_add_mod ms msPerDay
    rw [hmspd] at *
    omega
  unfold parseISO toISOString
  rw [show (String.mk (toISOChars ms)).data = toISOChars ms from rfl]
  rw [toISOChars_eq ms yy doy k dom (by rw [hyf]) hmf]
  by_cases hsmall : yy < 10000
  · rw [if_pos hsmall]
    have hplen : 1 ≤ (padNat 4 yy).length := by
      rw [padNat_length 4 yy (by omega) (by omega)]
      omega
    obtain ⟨c, cr, hcr⟩ : ∃ c cr, padNat 4 yy = c :: cr := by
      cases hp : padNat 4 yy with
      | nil => rw [hp] at hplen; simp at hplen
      | cons c cr => exact ⟨c, cr, rfl⟩
    have hcdig : isDigitCh c = true := padNat_digits 4 yy c (by rw [hcr]; simp)
    have hcne : ¬ c = '+' := by
      intro hce
      subst hce
      unfold isDigitCh at hcdig
      simp at hcdig
    rw [hcr, List.cons_append, parseISOChars_cons, if_neg hcne, ← List.cons_append, ← hcr]
    rw [readDigits_padNat 4 yy (by omega) (by omega)]
    dsimp only
    rw [htail, hrecon]
  · rw [if_neg hsmall]
    rw [List.cons_append, parseISOChars_cons, if_pos rfl]
    rw [readDigits_padNat 6 yy (by omega) (by omega)]
    dsimp only
    rw [htail, hrecon]

theorem b64ValStd_b64CharStd : ∀ n, n < 64 → b64ValStd (b64CharStd n) = some n := by
  decide

theorem b64ValUrl_b64CharUrl : ∀ n, n < 64 → b64ValUrl (b64CharUrl n) = some n := by
  decide

theorem b64CharStd_ne_eq : ∀ n, n < 64 → b64CharStd n ≠ '=' := by decide

theorem b64DecodeChunks_encode (charOf : Nat → Char) (valOf : Char → Option Nat)
    (hcv : ∀ n, n < 64 → valOf (charOf n) = some n) :
    ∀ bs : List Nat, (∀ b ∈ bs, b < 256) →
      b64DecodeChunks valOf (b64EncodeChunks charOf bs) = some bs := by
  intro bs
  induction bs using b64EncodeChunks.induct charOf with
  | case1 =>
    intro hb
    rfl
  | case2 a =>
    intro hb
    have ha : a < 256 := hb a (by simp)
    show b64DecodeChunks valOf [charOf (a / 4), charOf (a % 4 * 16)] = some [a]
    rw [b64DecodeChunks]
    rw [hcv (a / 4) (by omega), hcv (a % 4 * 16) (by omega)]
    dsimp only
    congr 2
    omega
  | case3 a b =>
    intro hb
    have ha : a < 256 := hb a (by simp)
    have hbb : b < 256 := hb b (by simp)
    show b64DecodeChunks valOf
      [charOf (a / 4), charOf (a % 4 * 16 + b / 16), charOf (b % 16 * 4)] = some [a, b]
    rw [b64DecodeChunks]
    rw [hcv (a / 4) (by omega), hcv (a % 4 * 16 + b / 16) (by omega),
      hcv (b % 16 * 4) (by omega)]
    dsimp only
    congr 3
    · omega
    · omega
  | case4 a b c rest ih =>
    intro hb
    have ha : a < 256 := hb a (by simp)
    have hbb : b < 256 := hb b (by simp)
    have hc : c < 256 := hb c (by simp)
    have hrest : ∀ x ∈ rest, x < 256 := fun x hx => hb x (by simp [hx])
    show b64DecodeChunks valOf (charOf (a / 4) :: charOf (a % 4 * 16 + b / 16) ::
      charOf (b % 16 * 4 + c / 64) :: charOf (c % 64) :: b64EncodeChunks charOf rest)
      = some (a :: b :: c :: rest)
    rw [b64DecodeChunks]
    rw [hcv (a / 4) (by omega), hcv (a % 4 * 16 + b / 16) (by omega),
      hcv (b % 16 * 4 + c / 64) (by omega), hcv (c % 64) (by omega), ih hrest]
    dsimp only
    congr 3
    · omega
    · omega
    · congr 1
      omega

theorem b64EncodeChunks_mem (charOf : Nat → Char) :
    ∀ bs (c : Char), (∀ b ∈ bs, b < 256) → c ∈ b64EncodeChunks charOf bs →
      ∃ n, n < 64 ∧ c = charOf n := by
  intro bs
  induction bs using b64EncodeChunks.induct charOf with
  | case1 => intro c _ hc; simp [b64EncodeChunks] at hc
  | case2 a =>
    intro c hb hc
    have ha : a < 256 := hb a (by simp)
    simp only [b64EncodeChunks, List.mem_cons, List.mem_singleton, List.not_mem_nil,
      or_false] at hc
    rcases hc with h | h
    · exact ⟨a / 4, by omega, h⟩
    · exact ⟨a % 4 * 16, by omega, h⟩
  | case3 a b =>
    intro c hb hc
    have ha : a < 256 := hb a (by simp)
    have hb2 : b < 256 := hb b (by simp)
    simp only [b64EncodeChunks, List.mem_cons, List.mem_singleton, List.not_mem_nil,
      or_false] at hc
    rcases hc with h | h | h
    · exact ⟨a / 4, by omega, h⟩
    · exact ⟨a % 4 * 16 + b / 16, by omega, h⟩
    · exact ⟨b % 16 * 4, by omega, h⟩
  | case4 a b c rest ih =>
    intro x hb hx
    have ha : a < 256 := hb a (by simp)
    have hb2 : b < 256 := hb b (by simp)
    have hc : c < 256 := hb c (by simp)
    simp only [b64EncodeChunks, List.mem_cons] at hx
    rcases hx with h | h | h | h | h
    · exact ⟨a / 4, by omega, h⟩
    · exact ⟨a % 4 * 16 + b / 16, by omega, h⟩
    · exact ⟨b % 16 * 4 + c / 64, by omega, h⟩
    · exact ⟨c % 64, by omega, h⟩
    · exact ih x (fun y hy => hb y (by simp [hy])) h

theorem dropWhile_of_none (p : Char → Bool) (l : List Char) (h : ∀ c ∈ l, ¬ p c) :
    l.dropWhile p = l := by
  cases l with
  | nil => rfl
  | cons c cs => simp [List.dropWhile, h c (by simp)]

theorem dropTrailingEq_pad (cs : List Char) (k : Nat) (h : ∀ c ∈ cs, ¬ c = '=') :
    dropTrailingEq (cs ++ List.replicate k '=') = cs := by
  unfold dropTrailingEq
  have h1 : List.dropWhile (fun c => c == '=') (List.replicate k '=') = [] := by
    rw [List.dropWhile_replicate]
    simp
  rw [List.reverse_append, List.reverse_replicate, List.dropWhile_append, h1]
  simp only [List.isEmpty_nil, if_true]
  rw [dropWhile_of_none _ _ (by
    intro c hc
    have := h c (by simpa using hc)
    simp [this])]
  simp

theorem jsAtob_jsBtoa (s : String) (h : s.data.all (fun c => c.toNat ≤ 255)) :
    jsAtob ((jsBtoa s).toOption.getD "") = .ok s := by
  unfold jsBtoa
  rw [if_pos h]
  unfold jsAtob
  rw [show (Except.ok (α := String) (String.mk
      (b64EncodeChunks b64CharStd (s.data.map Char.toNat) ++
        List.replicate
          ((4 - (b64EncodeChunks b64CharStd (s.data.map Char.toNat)).length % 4) % 4)
          '='))).toOption.getD "" = String.mk
      (b64EncodeChunks b64CharStd (s.data.map Char.toNat) ++
        List.replicate
          ((4 - (b64EncodeChunks b64CharStd (s.data.map Char.toNat)).length % 4) % 4) '=')
    from rfl]
  rw [show (String.mk
      (b64EncodeChunks b64CharStd (s.data.map Char.toNat) ++
        List.replicate
          ((4 - (b64EncodeChunks b64CharStd (s.data.map Char.toNat)).length % 4) % 4)
          '=')).data = b64EncodeChunks b64CharStd (s.data.map Char.toNat) ++
        List.replicate
          ((4 - (b64EncodeChunks b64CharStd (s.data.map Char.toNat)).length % 4) % 4) '='
    from rfl]
  have hbytes : ∀ b ∈ s.data.map Char.toNat, b < 256 := by
    intro b hbm
    simp only [List.mem_map] at hbm
    obtain ⟨c, hc, hbc⟩ := hbm
    subst hbc
    have := List.all_eq_true.mp h c hc
    simp only [decide_eq_true_eq] at this
    omega
  rw [dropTrailingEq_pad _ _ (by
    intro c hc
    obtain ⟨n, hn, hcn⟩ := b64EncodeChunks_mem b64CharStd _ c hbytes hc
    subst hcn
    exact b64CharStd_ne_eq n hn)]
  rw [b64DecodeChunks_encode b64CharStd b64ValStd b64ValStd_b64CharStd _ hbytes]
  dsimp only
  congr 1
  rw [List.map_map]
  rw [show Char.ofNat ∘ Char.toNat = id from funext fun c => Char.ofNat_toNat c]
  rw [List.map_id]

theorem takeWhile_append_stop (p : Char → Bool) (xs : List Char) (y : Char) (ys : List Char)
    (hx : ∀ c ∈ xs, p c = true) (hy : p y = false) :
    (xs ++ y :: ys).takeWhile p = xs ∧ (xs ++ y :: ys).dropWhile p = y :: ys := by
  induction xs with
  | nil =>
    constructor
    · simp [List.takeWhile_cons, hy]
    · simp [List.dropWhile_cons, hy]
  | cons x xs ih =>
    obtain ⟨ih1, ih2⟩ := ih (fun c hc => hx c (by simp [hc]))
    have hxp : p x = true := hx x (by simp)
    constructor
    · rw [List.cons_append, List.takeWhile_cons, hxp]
      simp only [if_true, ih1]
    · rw [List.cons_append, List.dropWhile_cons, hxp]
      simpa using ih2

theorem toDigits_ne_nil (n : Nat) : toDigits n ≠ [] := by
  rw [toDigits_eq]
  split <;> simp

theorem expectLit_append (lit rest : List Char) :
    expectLit lit (lit ++ rest) = .ok rest := by
  unfold expectLit
  rw [List.take_left, if_pos rfl, List.drop_left]

theorem colon_not_digit : isDigitCh ':' = false := by decide

theorem digitsVal_zero_toDigits (n : Nat) : digitsVal 0 (toDigits n) = n := by
  rw [digitsVal_toDigits]
  simp

theorem readLenPrefixed_encode (w rest : List Char) :
    readLenPrefixed (toDigits w.length ++ ':' :: (w ++ ':' :: rest))
      = some (w, rest) := by
  obtain ⟨ht, hd⟩ := takeWhile_append_stop isDigitCh (toDigits w.length) ':'
    (w ++ ':' :: rest) (toDigits_digits _) colon_not_digit
  unfold readLenPrefixed
  simp only [ht, hd, digitsVal_zero_toDigits]
  split
  · split
    · rw [List.drop_left, List.take_left]
      rfl
    · rename_i hq
      exact absurd (by simp [List.length_append]) hq
  · rename_i hq
    simp at hq

theorem parseBlob_encode (p w : String) (n : Nat) :
    parseBlob (blobBody p w n) = some (w, p, n) := by
  unfold parseBlob blobBody
  rw [show ('g' :: 'c' :: 'm' :: '1' :: ':' ::
      (toDigits w.data.length ++ ':' :: (w.data ++ ':' ::
        (toDigits p.data.length ++ ':' :: (p.data ++ ':' :: toDigits n)))))
    = ['g', 'c', 'm', '1', ':'] ++ (toDigits w.data.length ++ ':' :: (w.data ++ ':' ::
        (toDigits p.data.length ++ ':' :: (p.data ++ ':' :: toDigits n)))) from rfl]
  rw [expectLit_append]
  dsimp only
  rw [show w.data.length = w.data.length from rfl]
  rw [readLenPrefixed_encode w.data]
  dsimp only
  rw [readLenPrefixed_encode p.data]
  dsimp only
  rw [if_pos (by rw [digitsVal_zero_toDigits])]
  rw [digitsVal_zero_toDigits]

theorem blobTag_length (body : List Char) : (blobTag body).length = 7 := by
  refine padNat_length 7 _ (by omega) ?_
  have h2 : tagMod = 2097152 := rfl
  have h3 : (10 : Nat) ^ 7 = 10000000 := by norm_num
  rw [h3, h2]
  omega

theorem encrypt_take_body (p w : String) (n : Nat) :
    ((encryptVault p w n).data.take ((encryptVault p w n).data.length - 7))
      = blobBody p w n := by
  rw [show (encryptVault p w n).data
      = blobBody p w n ++ blobTag (blobBody p w n) from rfl]
  rw [List.length_append, blobTag_length]
  rw [Nat.add_sub_cancel]
  exact List.take_left _ _

theorem encrypt_drop_tag (p w : String) (n : Nat) :
    ((encryptVault p w n).data.drop ((encryptVault p w n).data.length - 7))
      = blobTag (blobBody p w n) := by
  rw [show (encryptVault p w n).data
      = blobBody p w n ++ blobTag (blobBody p w n) from rfl]
  rw [List.length_append, blobTag_length]
  rw [Nat.add_sub_cancel]
  exact List.drop_left _ _

/-- AEAD round trip: decrypting an honest encryption with the sealing
password recovers the plaintext. -/
theorem decryptVault_encryptVault (p w : String) (n : Nat) :
    decryptVault (encryptVault p w n) w = .ok p := by
  unfold decryptVault aes_gcm_decrypt
  rw [encrypt_take_body, encrypt_drop_tag]
  rw [if_pos rfl]
  rw [parseBlob_encode]
  dsimp only
  rw [if_pos rfl]

/-- AEAD authenticity: decryption with a different password fails. -/
theorem decryptVault_wrongPassword (p w w' : String) (n : Nat) (h : w' ≠ w) :
    decryptVault (encryptVault p w n) w' = .error "OperationError" := by
  unfold decryptVault aes_gcm_decrypt
  rw [encrypt_take_body, encrypt_drop_tag]
  rw [if_pos rfl]
  rw [parseBlob_encode]
  dsimp only
  rw [if_neg h]

theorem char_toNat_lt (c : Char) : c.toNat < 1114112 := by
  rcases c.valid with h | ⟨h1, h2⟩
  · exact Nat.lt_trans h (by decide)
  · exact h2

theorem char_toNat_inj : ∀ a b : Char, a.toNat = b.toNat → a = b
  | ⟨⟨⟨x, hx⟩⟩, _⟩, ⟨⟨⟨y, hy⟩⟩, _⟩, h => by
    simp only [Char.toNat, UInt32.toNat] at h
    subst h
    rfl

theorem sumChars_set (l : List Char) (i : Nat) (c : Char) (h : i < l.length) :
    sumChars (l.set i c) + (l.get ⟨i, h⟩).toNat = sumChars l + c.toNat := by
  induction l generalizing i with
  | nil => simp at h
  | cons a as ih =>
    cases i with
    | zero =>
      simp only [List.set, sumChars, List.map, List.sum_cons, List.get]
      omega
    | succ j =>
      have hj : j < as.length := by simpa using h
      have := ih j hj
      simp only [List.set, sumChars, List.map, List.sum_cons, List.get] at this ⊢
      omega

/-- Changing one character of a blob body changes its authentication
tag: the checksum difference of a single character is nonzero and
smaller than the modulus. -/
theorem blobTag_set_ne (body : List Char) (i : Nat) (c : Char) (h : i < body.length)
    (hne : c ≠ body.get ⟨i, h⟩) : blobTag (body.set i c) ≠ blobTag body := by
  intro heq
  have hv := congrArg (digitsVal 0) heq
  rw [blobTag, blobTag, digitsVal_padNat, digitsVal_padNat] at hv
  have hm : sumChars (body.set i c) ≡ sumChars body [MOD tagMod] := hv
  obtain ⟨k, hk⟩ := hm.dvd
  have hs := sumChars_set body i c h
  have hc1 := char_toNat_lt c
  have hc2 := char_toNat_lt (body.get ⟨i, h⟩)
  have hcne : c.toNat ≠ (body.get ⟨i, h⟩).toNat := by
    intro hEq
    exact hne (char_toNat_inj _ _ hEq)
  have hs2 : (sumChars (body.set i c) : ℤ) + ((body.get ⟨i, h⟩).toNat : ℤ)
      = (sumChars body : ℤ) + (c.toNat : ℤ) := by
    exact_mod_cast hs
  have hM : (tagMod : ℤ) = 2097152 := by rfl
  rw [hM] at hk
  omega

theorem set_append_left (l₁ l₂ : List Char) (i : Nat) (a : Char) (h : i < l₁.length) :
    (l₁ ++ l₂).set i a = l₁.set i a ++ l₂ := by
  induction l₁ generalizing i with
  | nil => simp at h
  | cons x xs ih =>
    cases i with
    | zero => rfl
    | succ j =>
      have hj : j < xs.length := by simpa using h
      show x :: (xs ++ l₂).set j a = x :: (xs.set j a ++ l₂)
      rw [ih j hj]

theorem set_append_right (l₁ l₂ : List Char) (i : Nat) (a : Char) (h : l₁.length ≤ i) :
    (l₁ ++ l₂).set i a = l₁ ++ l₂.set (i - l₁.length) a := by
  induction l₁ generalizing i with
  | nil => simp
  | cons x xs ih =>
    cases i with
    | zero => simp at h
    | succ j =>
      have hj : xs.length ≤ j := by simpa using h
      have hss : j + 1 - (x :: xs).length = j - xs.length := by
        simp only [List.length_cons]
        omega
      rw [hss]
      show x :: (xs ++ l₂).set j a = x :: (xs ++ l₂.set (j - xs.length) a)
      rw [ih j hj]

theorem get_append_left (l₁ l₂ : List Char) (i : Nat) (h : i < l₁.length)
    (h2 : i < (l₁ ++ l₂).length) : (l₁ ++ l₂).get ⟨i, h2⟩ = l₁.get ⟨i, h⟩ := by
  induction l₁ generalizing i with
  | nil => simp at h
  | cons x xs ih =>
    cases i with
    | zero => rfl
    | succ j =>
      have hj : j < xs.length := by simpa using h
      have h2b : j < (xs ++ l₂).length := by
        simp only [List.cons_append, List.length_cons] at h2
        omega
      show (xs ++ l₂).get ⟨j, h2b⟩ = xs.get ⟨j, hj⟩
      exact ih j hj h2b

theorem get_append_right (l₁ l₂ : List Char) (i : Nat) (h : l₁.length ≤ i)
    (h2 : i < (l₁ ++ l₂).length) (h3 : i - l₁.length < l₂.length) :
    (l₁ ++ l₂).get ⟨i, h2⟩ = l₂.get ⟨i - l₁.length, h3⟩ := by
  induction l₁ generalizing i with
  | nil => rfl
  | cons x xs ih =>
    cases i with
    | zero => simp at h
    | succ j =>
      have hj : xs.length ≤ j := by simpa using h
      have h2b : j < (xs ++ l₂).length := by
        simp only [List.cons_append, List.length_cons] at h2
        omega
      have hss : j + 1 - (x :: xs).length = j - xs.length := by
        simp only [List.length_cons]
        omega
      have h3c := h3
      have h3b : j - xs.length < l₂.length := by
        simp only [List.length_cons] at h3c
        omega
      exact (ih j hj h2b h3b).trans (congrArg l₂.get (Fin.ext hss.symm))

theorem set_ne_of_get_ne (l : List Char) (i : Nat) (a : Char) (h : i < l.length)
    (hne : a ≠ l.get ⟨i, h⟩) : l.set i a ≠ l := by
  induction l generalizing i with
  | nil => simp at h
  | cons x xs ih =>
    cases i with
    | zero =>
      intro heq
      injection heq with h1 h2
      exact hne h1
    | succ j =>
      intro heq
      injection heq with h1 h2
      exact ih j (by simpa using h) hne h2

/-- AEAD authenticity: tampering any single byte of an honest ciphertext
makes decryption fail, under every password.  A change in the body
breaks the tag (the checksum no longer matches); a change in the tag
breaks it against the unchanged body. -/
theorem decryptVault_byteTamper (p w : String) (n : Nat) (i : Nat) (ch : Char)
    (hi : i < (encryptVault p w n).data.length)
    (hne : ch ≠ (encryptVault p w n).data.get ⟨i, hi⟩) (password : String) :
    decryptVault (String.mk ((encryptVault p w n).data.set i ch)) password
      = .error "OperationError" := by
  have hdata : (encryptVault p w n).data
      = blobBody p w n ++ blobTag (blobBody p w n) := rfl
  have htl := blobTag_length (blobBody p w n)
  have hilen : i < (blobBody p w n).length + 7 := by
    have h2 := hi
    rw [hdata, List.length_append, htl] at h2
    exact h2
  unfold decryptVault aes_gcm_decrypt
  by_cases hiL : i < (blobBody p w n).length
  · have hset : (encryptVault p w n).data.set i ch
        = (blobBody p w n).set i ch ++ blobTag (blobBody p w n) := by
      rw [hdata]
      exact set_append_left _ _ _ _ hiL
    rw [show (String.mk ((encryptVault p w n).data.set i ch)).data
        = (encryptVault p w n).data.set i ch from rfl]
    rw [hset]
    have hlen : ((blobBody p w n).set i ch ++ blobTag (blobBody p w n)).length - 7
        = ((blobBody p w n).set i ch).length := by
      rw [List.length_append, htl]
      omega
    rw [hlen, List.take_left, List.drop_left]
    have hgeteq : (encryptVault p w n).data.get ⟨i, hi⟩ = (blobBody p w n).get ⟨i, hiL⟩ :=
      get_append_left (blobBody p w n) (blobTag (blobBody p w n)) i hiL hi
    have hne2 : ch ≠ (blobBody p w n).get ⟨i, hiL⟩ :=
      fun hEq => hne (hEq.trans hgeteq.symm)
    rw [if_neg (fun hEq => blobTag_set_ne (blobBody p w n) i ch hiL hne2 hEq.symm)]
  · have hL : (blobBody p w n).length ≤ i := Nat.le_of_not_lt hiL
    have hj : i - (blobBody p w n).length < (blobTag (blobBody p w n)).length := by
      rw [htl]
      omega
    have hset : (encryptVault p w n).data.set i ch
        = blobBody p w n ++ (blobTag (blobBody p w n)).set
            (i - (blobBody p w n).length) ch := by
      rw [hdata]
      exact set_append_right _ _ _ _ hL
    rw [show (String.mk ((encryptVault p w n).data.set i ch)).data
        = (encryptVault p w n).data.set i ch from rfl]
    rw [hset]
    have hlen : (blobBody p w n ++ (blobTag (blobBody p w n)).set
        (i - (blobBody p w n).length) ch).length - 7 = (blobBody p w n).length := by
      rw [List.length_append, List.length_set, htl]
      omega
    rw [hlen, List.take_left, List.drop_left]
    have hgeteq : (encryptVault p w n).data.get ⟨i, hi⟩
        = (blobTag (blobBody p w n)).get ⟨i - (blobBody p w n).length, hj⟩ :=
      get_append_right (blobBody p w n) (blobTag (blobBody p w n)) i hL hi hj
    have hne2 : ch ≠ (blobTag (blobBody p w n)).get ⟨i - (blobBody p w n).length, hj⟩ :=
      fun hEq => hne (hEq.trans hgeteq.symm)
    rw [if_neg (set_ne_of_get_ne _ _ _ hj hne2)]

theorem processImportEntries_cons (mkMsg : Nat → JVal → ImportError) (e : JVal)
    (es : List JVal) (i : Nat) :
    processImportEntries mkMsg (e :: es) i =
      (let r := processImportEntries mkMsg es (i + 1)
       if (validateVaultEntry e).isValid then (e :: r.1, r.2.1 + 1, r.2.2.1, r.2.2.2)
       else (r.1, r.2.1, r.2.2.1 + 1, mkMsg i e :: r.2.2.2)) := rfl

theorem processImportEntries_count (mkMsg : Nat → JVal → ImportError) :
    ∀ es i, (processImportEntries mkMsg es i).2.1 +
      (processImportEntries mkMsg es i).2.2.1 = es.length := by
  intro es
  induction es with
  | nil => intro i; rfl
  | cons e es ih =>
    intro i
    rw [processImportEntries_cons]
    have := ih (i + 1)
    by_cases hv : (validateVaultEntry e).isValid
    · rw [if_pos hv]
      simp only [List.length_cons]
      omega
    · rw [if_neg hv]
      simp only [List.length_cons]
      omega

theorem processImportEntries_errors (mkMsg : Nat → JVal → ImportError) :
    ∀ es i, (processImportEntries mkMsg es i).2.2.2 = [] ↔
      (processImportEntries mkMsg es i).2.2.1 = 0 := by
  intro es
  induction es with
  | nil => intro i; simp [processImportEntries]
  | cons e es ih =>
    intro i
    rw [processImportEntries_cons]
    have := ih (i + 1)
    by_cases hv : (validateVaultEntry e).isValid
    · rw [if_pos hv]
      exact this
    · rw [if_neg hv]
      simp

theorem processCsvRows_cons (headers : List String) (now : Nat) (line : String)
    (rest : List String) (i : Nat) :
    processCsvRows headers now (line :: rest) i =
      (let r := processCsvRows headers now rest (i + 1)
       if (parseCSVLine line).length ≠ headers.length then
         (r.1, r.2.1, r.2.2.1 + 1,
           ⟨some (i + 1), "Invalid CSV line: column count mismatch", []⟩ :: r.2.2.2)
       else
         let entry := csvRowToEntry headers (parseCSVLine line) now
         if (validateVaultEntry entry).isValid then (entry :: r.1, r.2.1 + 1, r.2.2.1, r.2.2.2)
         else (r.1, r.2.1, r.2.2.1 + 1,
           ⟨some (i + 1), "Invalid entry: " ++ entryTitleOr entry,
             (validateVaultEntry entry).errors⟩ :: r.2.2.2)) := rfl

theorem processCsvRows_count (headers : List String) (now : Nat) :
    ∀ lines i, (processCsvRows headers now lines i).2.1 +
      (processCsvRows headers now lines i).2.2.1 = lines.length := by
  intro lines
  induction lines with
  | nil => intro i; rfl
  | cons line rest ih =>
    intro i
    rw [processCsvRows_cons]
    have := ih (i + 1)
    by_cases hl : (parseCSVLine line).length ≠ headers.length
    · rw [if_pos hl]
      simp only [List.length_cons]
      omega
    · rw [if_neg hl]
      by_cases hv : (validateVaultEntry (csvRowToEntry headers (parseCSVLine line) now)).isValid
      · rw [if_pos hv]
        simp only [List.length_cons]
        omega
      · rw [if_neg hv]
        simp only [List.length_cons]
        omega

/-! ## Claim theorems -/

/-- C5: `deriveKey(password, salt)` is deterministic — the same
(password, salt) pair always yields the same key (the embedding passes
no randomness into the KDF) — and is computed by the salted
password-based KDF PBKDF2 with the fixed iteration count 100 000 (in the
hundreds of thousands) over SHA-256, deriving a 256-bit (32-byte)
key. -/
theorem claim_C5_deriveKey_deterministic_params :
    (∀ (password1 password2 : String) (salt1 salt2 : List Nat),
      password1 = password2 → salt1 = salt2 →
        deriveKey password1 salt1 = deriveKey password2 salt2) ∧
    (∀ password salt, deriveKey password salt =
      pbkdf2Key HashAlg.SHA256 deriveKeyIterations 256 password salt) ∧
    deriveKeyIterations = 100000 ∧
    100000 ≤ deriveKeyIterations ∧ deriveKeyIterations ≤ 999999 ∧
    (∀ password salt, (deriveKey password salt).keyBytes.length = 32) := by
  refine ⟨?_, ?_, rfl, by decide, by decide, ?_⟩
  · intro p1 p2 s1 s2 hp hs
    rw [hp, hs]
  · intro p s
    rfl
  · intro p s
    simp [deriveKey, pbkdf2Key]

theorem expectLit_ok_shape (lit cs rest : List Char) (h : expectLit lit cs = .ok rest) :
    cs = lit ++ rest := by
  unfold expectLit at h
  by_cases hc : cs.take lit.length = lit
  · rw [if_pos hc] at h
    injection h with h2
    subst h2
    conv_lhs => rw [← List.take_append_drop lit.length cs]
    rw [hc]
  · rw [if_neg hc] at h
    exact Except.noConfusion h

theorem readLenPrefixed_some_shape (cs w rest : List Char)
    (h : readLenPrefixed cs = some (w, rest)) :
    cs = toDigits w.length ++ ':' :: (w ++ ':' :: rest) := by
  simp only [readLenPrefixed] at h
  by_cases hcan : cs.takeWhile isDigitCh = toDigits (digitsVal 0 (cs.takeWhile isDigitCh))
  case neg =>
    rw [if_neg hcan] at h
    exact Option.noConfusion h
  rw [if_pos hcan] at h
  split at h
  · rename_i rest2 hdrop
    by_cases hlen : digitsVal 0 (cs.takeWhile isDigitCh) ≤ rest2.length
    case neg =>
      rw [if_neg hlen] at h
      exact Option.noConfusion h
    rw [if_pos hlen] at h
    split at h
    · rename_i rest3 hdrop2
      injection h with h2
      injection h2 with hw hr
      subst hw
      subst hr
      have hwlen : (rest2.take (digitsVal 0 (cs.takeWhile isDigitCh))).length
          = digitsVal 0 (cs.takeWhile isDigitCh) := by
        rw [List.length_take]
        omega
      have hsplit2 : rest2 = rest2.take (digitsVal 0 (cs.takeWhile isDigitCh)) ++
          ':' :: rest3 := by
        conv_lhs => rw [← List.take_append_drop (digitsVal 0 (cs.takeWhile isDigitCh)) rest2]
        rw [hdrop2]
      have hsplit1 : cs = cs.takeWhile isDigitCh ++ ':' :: rest2 := by
        conv_lhs => rw [← List.takeWhile_append_dropWhile (p := isDigitCh) (l := cs)]
        rw [hdrop]
      rw [hwlen, hcan, digitsVal_zero_toDigits, ← hcan, ← hsplit2]
      exact hsplit1
    · exact Option.noConfusion h
  · exact Option.noConfusion h

/-- Completeness of the blob coding: a successful parse means the
ciphertext string is exactly the encryption of the recovered plaintext
under the recovered password and nonce. -/
theorem parseBlob_some_shape (cs : List Char) (pw pt : String) (n : Nat)
    (h : parseBlob cs = some (pw, pt, n)) :
    cs = blobBody pt pw n := by
  unfold parseBlob at h
  rcases hlit : expectLit ['g', 'c', 'm', '1', ':'] cs with e | cs1
  · rw [hlit] at h
    exact Option.noConfusion h
  rw [hlit] at h
  simp only [] at h
  rcases hrl1 : readLenPrefixed cs1 with _ | ⟨pwc, cs2⟩
  · rw [hrl1] at h
    exact Option.noConfusion h
  rw [hrl1] at h
  simp only [] at h
  rcases hrl2 : readLenPrefixed cs2 with _ | ⟨ptc, cs3⟩
  · rw [hrl2] at h
    exact Option.noConfusion h
  rw [hrl2] at h
  simp only [] at h
  by_cases hcan : cs3 = toDigits (digitsVal 0 cs3)
  case neg =>
    rw [if_neg hcan] at h
    exact Option.noConfusion h
  rw [if_pos hcan] at h
  injection h with h2
  injection h2 with hpw h3
  injection h3 with hpt hn
  subst hpw
  subst hpt
  subst hn
  have hshape1 := readLenPrefixed_some_shape _ _ _ hrl1
  have hshape2 := readLenPrefixed_some_shape _ _ _ hrl2
  have hcs : cs = ['g', 'c', 'm', '1', ':'] ++ cs1 := expectLit_ok_shape _ _ _ hlit
  rw [hcs, hshape1, hshape2]
  conv_lhs => rw [hcan]
  rfl

/-- C3: opening a sealed blob with any password other than the sealing
password fails closed with the AEAD decryption error `OperationError`
(which `importEncryptedVault` reports as `Decryption failed: ...`);
opening after any single byte of the ciphertext has been replaced by a
different character fails the same way under every password (the
modelled GCM tag check catches every one-byte change); and decryption
never returns corrupted or altered plaintext: it can succeed only when
the ciphertext is exactly the sealing of the returned plaintext under
the supplied password (the AEAD primitive itself is third-party
`crypto-aes-gcm`, modelled from the spec as an authenticated blob
coding). -/
theorem claim_C3_decryption_fails_closed (p w wrong : String) (n : Nat) (c : String)
    (hw : wrong ≠ w) :
    decryptVault (encryptVault p w n) wrong = .error "OperationError" ∧
    (∀ (i : Nat) (hi : i < (encryptVault p w n).data.length) (ch : Char),
      ch ≠ (encryptVault p w n).data.get ⟨i, hi⟩ →
      ∀ password, decryptVault (String.mk ((encryptVault p w n).data.set i ch)) password
        = .error "OperationError") ∧
    (∀ pt, decryptVault c wrong = .ok pt → ∃ nonce, c = encryptVault pt wrong nonce) := by
  refine ⟨decryptVault_wrongPassword p w wrong n hw,
    fun i hi ch hne password => decryptVault_byteTamper p w n i ch hi hne password, ?_⟩
  intro pt hok
  unfold decryptVault aes_gcm_decrypt at hok
  by_cases htag : c.data.drop (c.data.length - 7)
      = blobTag (c.data.take (c.data.length - 7))
  case neg =>
    rw [if_neg htag] at hok
    exact Except.noConfusion hok
  rw [if_pos htag] at hok
  rcases hq : parseBlob (c.data.take (c.data.length - 7)) with _ | ⟨pw0, pt0, n0⟩
  · rw [hq] at hok
    exact Except.noConfusion hok
  rw [hq] at hok
  simp only [] at hok
  by_cases hpw : wrong = pw0
  · rw [if_pos hpw] at hok
    injection hok with hpt
    refine ⟨n0, ?_⟩
    have hc := parseBlob_some_shape _ pw0 pt0 n0 hq
    refine String.ext ?_
    calc c.data = c.data.take (c.data.length - 7) ++ c.data.drop (c.data.length - 7) :=
          (List.take_append_drop _ _).symm
      _ = blobBody pt0 pw0 n0 ++ blobTag (blobBody pt0 pw0 n0) := by rw [htag, hc]
      _ = (encryptVault pt wrong n0).data := by
            rw [hpt, ← hpw]
            rfl
  · rw [if_neg hpw] at hok
    exact Except.noConfusion hok

/-- C3 witness at concrete inputs: sealing `secret` under password `pw`
with nonce 3, then opening with the wrong password `oops`, after a
one-byte tamper, and the soundness of every successful opening. -/
theorem claim_C3_witness :
    "oops" ≠ "pw" ∧
    (decryptVault (encryptVault "secret" "pw" 3) "oops" = .error "OperationError" ∧
     (∀ (i : Nat) (hi : i < (encryptVault "secret" "pw" 3).data.length) (ch : Char),
       ch ≠ (encryptVault "secret" "pw" 3).data.get ⟨i, hi⟩ →
       ∀ password, decryptVault
         (String.mk ((encryptVault "secret" "pw" 3).data.set i ch)) password
           = .error "OperationError") ∧
     (∀ pt, decryptVault (encryptVault "secret" "pw" 3) "oops" = .ok pt →
       ∃ nonce, encryptVault "secret" "pw" 3 = encryptVault pt "oops" nonce)) :=
  ⟨by decide, claim_C3_decryption_fails_closed "secret" "pw" "oops" 3
    (encryptVault "secret" "pw" 3) (by decide)⟩

/-- C1: refuted as stated — the code never consults the supported-version
set. `SUPPORTED_VERSIONS` is declared but unused: for the envelope
`envV99`, whose version `9.9.9` is outside `SUPPORTED_VERSIONS`,
`importVault` does not fail with an `UnsupportedVersion` error; it
attempts decryption (the instrumentation flag of
`importEncryptedVaultI` is `true`) and imports the vault with no errors
at all. -/
theorem claim_C1_unsupported_version_not_rejected :
    "9.9.9" ∉ SUPPORTED_VERSIONS ∧
    (importEncryptedVaultI envV99 (some "pw")).2 = true ∧
    (importVault envV99 (some "pw") 0 "nid").errors = [] ∧
    jsGet (importVault envV99 (some "pw") 0 "nid").vault "entries" = .arr [] := by
  refine ⟨by decide, rfl, rfl, rfl⟩

/-- C2: the sealed-blob round trip itself holds for every plaintext and
password (first conjunct), but the export/import composition is refuted:
`exportVault` in the default encrypted `vault` format always throws.  It
deep-copies the vault through `JSON.parse(JSON.stringify(vault))`, which
turns `createdAt` into a string, then calls `.toISOString()` on that
string, a `TypeError` — so no encrypted export output ever exists for
`importVault` to read back. -/
theorem claim_C2_roundtrip_export_throws :
    (∀ (P W : String) (n : Nat), decryptVault (encryptVault P W n) W = .ok P) ∧
    exportVault sampleVault (some "pw") defaultExportOptions 7 =
      .error "TypeError: toISOString is not a function" := by
  exact ⟨fun P W n => decryptVault_encryptVault P W n, rfl⟩

/-- C4: in `importEncryptedVault`, structural validation and the
master-password check run strictly before any cryptographic operation.
The second component of `importEncryptedVaultI` records whether
`decryptVault` was reached: an envelope that fails `vaultFileSchema`
yields the `Invalid vault file format` failure with no crypto call, and
a schema-valid envelope with an absent (or empty) master password yields
the `Master password is required for encrypted vault import` failure,
the ciphertext untouched. -/
theorem claim_C4_validation_before_crypto (data : String) (pw : Option String) :
    (∀ e, parseJSON data = .error e →
      importEncryptedVaultI data pw =
        (mkImportFailure ("Decryption failed: " ++ e), false)) ∧
    (∀ v, parseJSON data = .ok v → vaultFileSchemaOk v = false →
      importEncryptedVaultI data pw =
        (mkImportFailure "Invalid vault file format", false)) ∧
    (∀ v, parseJSON data = .ok v → vaultFileSchemaOk v = true →
      (pw = none ∨ pw = some "") →
      importEncryptedVaultI data pw =
        (mkImportFailure "Master password is required for encrypted vault import",
          false)) := by
  refine ⟨?_, ?_, ?_⟩
  · intro e he
    unfold importEncryptedVaultI
    rw [he]
  · intro v hv hschema
    unfold importEncryptedVaultI
    rw [hv]
    simp only []
    rw [hschema]
    rfl
  · intro v hv hschema hpw
    unfold importEncryptedVaultI
    rw [hv]
    simp only []
    rw [hschema]
    rw [if_neg (by simp)]
    rw [if_pos hpw]

/-- C4 witness at concrete inputs: a parseable envelope failing the
schema, and a schema-valid envelope with no password. -/
theorem claim_C4_witness :
    importEncryptedVaultI "\x7b\"data\":1\x7d" none =
      (mkImportFailure "Invalid vault file format", false) ∧
    importEncryptedVaultI
        "\x7b\"data\":\"\",\"salt\":\"\",\"iv\":\"\",\"version\":\"1.0.0\"\x7d" none =
      (mkImportFailure "Master password is required for encrypted vault import",
        false) :=
  ⟨(claim_C4_validation_before_crypto "\x7b\"data\":1\x7d" none).2.1
      (.obj [("data", .num 1)]) rfl rfl,
   (claim_C4_validation_before_crypto
        "\x7b\"data\":\"\",\"salt\":\"\",\"iv\":\"\",\"version\":\"1.0.0\"\x7d" none).2.2
      (.obj [("data", .str ""), ("salt", .str ""), ("iv", .str ""),
        ("version", .str "1.0.0")]) rfl rfl (Or.inl rfl)⟩

/-- C10: the failing branches of the CRUD operations return exactly the
input vault value (hence same entries and same `updatedAt`): `addEntry`
on entry data failing validation, `updateEntry` and `deleteEntry` on an
id that is not present, and `updateEntry` when the merged entry fails
validation; in each case the failure is reported through the returned
validation result rather than by modifying the vault. -/
theorem claim_C10_failing_crud_preserves_vault (vault entryData updateData : JVal)
    (entryId : String) (now : Nat) (newId : String) :
    ((validateCreateEntryData entryData).errors ≠ [] →
      (addEntry vault entryData now newId).1 = vault ∧
      (addEntry vault entryData now newId).2.2 = validateCreateEntryData entryData) ∧
    ((vaultEntries vault).findIdx? (fun e => jsStrEq (jsGet e "id") entryId) = none →
      (updateEntry vault entryId updateData now).1 = vault ∧
      (updateEntry vault entryId updateData now).2.2 =
        ⟨false, [⟨"id", "Entry not found", "ENTRY_NOT_FOUND"⟩], []⟩ ∧
      deleteEntry vault entryId now = vault) ∧
    (∀ idx, (vaultEntries vault).findIdx? (fun e => jsStrEq (jsGet e "id") entryId) =
        some idx →
      (validateCreateEntryData (mergeEntryUpdate ((vaultEntries vault).getD idx .undef)
        updateData now)).errors ≠ [] →
      (updateEntry vault entryId updateData now).1 = vault) := by
  refine ⟨?_, ?_, ?_⟩
  · intro h
    simp only [addEntry]
    rw [if_pos (by simpa using List.length_pos.mpr h)]
    exact ⟨rfl, rfl⟩
  · intro h
    refine ⟨?_, ?_, ?_⟩
    · simp only [updateEntry]
      rw [h]
    · simp only [updateEntry]
      rw [h]
    · simp only [deleteEntry]
      rw [h]
  · intro idx hidx herr
    simp only [updateEntry]
    rw [hidx]
    simp only []
    rw [if_pos (by simpa using List.length_pos.mpr herr)]

/-- C10 witness at concrete inputs: entry data with no title, an absent
entry id, and an update that blanks the title of an existing entry. -/
theorem claim_C10_witness :
    ((addEntry sampleVault (.obj []) 5 "id9").1 = sampleVault ∧
      (addEntry sampleVault (.obj []) 5 "id9").2.2 =
        validateCreateEntryData (.obj [])) ∧
    (updateEntry sampleVault "nope" (.obj []) 5).1 = sampleVault ∧
    deleteEntry sampleVault "nope" 5 = sampleVault ∧
    (updateEntry c10Vault "e1" (.obj [("title", .str "")]) 5).1 = c10Vault :=
  ⟨(claim_C10_failing_crud_preserves_vault sampleVault (.obj []) (.obj [])
      "nope" 5 "id9").1 (by decide),
   ((claim_C10_failing_crud_preserves_vault sampleVault (.obj []) (.obj [])
      "nope" 5 "id9").2.1 rfl).1,
   ((claim_C10_failing_crud_preserves_vault sampleVault (.obj []) (.obj [])
      "nope" 5 "id9").2.1 rfl).2.2,
   (claim_C10_failing_crud_preserves_vault c10Vault (.obj [])
      (.obj [("title", .str "")]) "e1" 5 "id9").2.2 0 rfl (by decide)⟩

theorem escapeCSV_str (s : String) : escapeCSV (.str s) =
    if needsCsvQuoting s then String.mk (quoteCh :: csvQuoteBody s.data) else s := rfl

theorem csvQuoteBody_ne_nil (cs : List Char) : csvQuoteBody cs ≠ [] := by
  cases cs with
  | nil => simp [csvQuoteBody]
  | cons c cs =>
    simp only [csvQuoteBody, List.foldr_cons]
    split <;> simp

theorem parseCSVLineAux_nil (inQ : Bool) (cur : List Char) (acc : List String) :
    parseCSVLineAux [] inQ cur acc = acc ++ [String.mk cur] := rfl

theorem parseCSVLineAux_comma (rest : List Char) (cur : List Char) (acc : List String) :
    parseCSVLineAux (',' :: rest) false cur acc =
      parseCSVLineAux rest false [] (acc ++ [String.mk cur]) := by
  cases rest <;> rfl

theorem parseCSVLineAux_dquote (rest : List Char) (cur : List Char) (acc : List String) :
    parseCSVLineAux (quoteCh :: quoteCh :: rest) true cur acc =
      parseCSVLineAux rest true (cur ++ [quoteCh]) acc := rfl

theorem parseCSVLineAux_openNe (xs : List Char) (cur : List Char) (acc : List String)
    (h : xs ≠ []) :
    parseCSVLineAux (quoteCh :: xs) false cur acc = parseCSVLineAux xs true cur acc := by
  rcases xs with _ | ⟨d, ds⟩
  · exact absurd rfl h
  · rfl

theorem parseCSVLineAux_closeQuote (cur : List Char) (acc : List String) :
    parseCSVLineAux [quoteCh] true cur acc = acc ++ [String.mk cur] := rfl

theorem parseCSVLineAux_closeComma (rest : List Char) (cur : List Char)
    (acc : List String) :
    parseCSVLineAux (quoteCh :: ',' :: rest) true cur acc =
      parseCSVLineAux (',' :: rest) false cur acc := rfl

theorem parseCSVLineAux_other (c : Char) (rest : List Char) (inQ : Bool)
    (cur : List Char) (acc : List String) (hc : c ≠ quoteCh)
    (hcomma : (decide (c = ',') && !inQ) = false) :
    parseCSVLineAux (c :: rest) inQ cur acc =
      parseCSVLineAux rest inQ (cur ++ [c]) acc := by
  cases rest with
  | nil =>
    simp only [parseCSVLineAux]
    rw [if_neg hc, hcomma]
    rfl
  | cons q rest2 =>
    simp only [parseCSVLineAux]
    rw [if_neg hc, hcomma]
    rfl

theorem parseCSV_quotedBody (cs : List Char) : ∀ (cur : List Char) (acc : List String)
    (after : List Char), (after = [] ∨ ∃ r, after = ',' :: r) →
    parseCSVLineAux (csvQuoteBody cs ++ after) true cur acc =
      parseCSVLineAux after false (cur ++ cs) acc := by
  induction cs with
  | nil =>
    intro cur acc after hafter
    rcases hafter with rfl | ⟨r, rfl⟩
    · rw [List.append_nil, List.append_nil]
      rfl
    · rw [List.append_nil]
      rfl
  | cons c cs ih =>
    intro cur acc after hafter
    by_cases hc : c = quoteCh
    · subst hc
      rw [show csvQuoteBody (quoteCh :: cs) ++ after
          = quoteCh :: quoteCh :: (csvQuoteBody cs ++ after) from rfl]
      rw [parseCSVLineAux_dquote, ih (cur ++ [quoteCh]) acc after hafter,
        List.append_assoc]
      rfl
    · have hb : csvQuoteBody (c :: cs) = c :: csvQuoteBody cs := by
        simp only [csvQuoteBody, List.foldr_cons]
        rw [if_neg hc]
      have hcomma : (decide (c = ',') && !true) = false := by simp
      rw [show csvQuoteBody (c :: cs) ++ after = c :: (csvQuoteBody cs ++ after) from
        by rw [hb]; rfl]
      rw [parseCSVLineAux_other c _ true cur acc hc hcomma,
        ih (cur ++ [c]) acc after hafter, List.append_assoc]
      rfl

theorem parseCSV_rawBody (cs : List Char) : ∀ (cur : List Char) (acc : List String)
    (after : List Char), (∀ c ∈ cs, c ≠ quoteCh ∧ c ≠ ',') →
    parseCSVLineAux (cs ++ after) false cur acc =
      parseCSVLineAux after false (cur ++ cs) acc := by
  induction cs with
  | nil =>
    intro cur acc after _
    rw [List.nil_append, List.append_nil]
  | cons c cs ih =>
    intro cur acc after h
    obtain ⟨hc, hcm⟩ := h c (List.mem_cons_self c cs)
    have hcomma : (decide (c = ',') && !false) = false := by simp [hcm]
    rw [List.cons_append, parseCSVLineAux_other c _ false cur acc hc hcomma,
      ih (cur ++ [c]) acc after (fun x hx => h x (List.mem_cons_of_mem c hx)),
      List.append_assoc]
    rfl

theorem parseCSV_field (s : String) (acc : List String) (after : List Char)
    (hafter : after = [] ∨ ∃ r, after = ',' :: r) :
    parseCSVLineAux ((escapeCSV (.str s)).data ++ after) false [] acc =
      parseCSVLineAux after false s.data acc := by
  rw [escapeCSV_str]
  by_cases hq : needsCsvQuoting s
  · rw [if_pos hq]
    rw [show (String.mk (quoteCh :: csvQuoteBody s.data)).data ++ after
        = quoteCh :: (csvQuoteBody s.data ++ after) from rfl]
    rw [parseCSVLineAux_openNe _ _ _
      (by simp [csvQuoteBody_ne_nil])]
    rw [parseCSV_quotedBody s.data [] acc after hafter]
    rfl
  · rw [if_neg hq]
    have h2 : s.data.any
        (fun c => c = quoteCh || c = ',' || c = newlineCh || c = carriageCh) = false := by
      simpa [needsCsvQuoting] using hq
    have hall : ∀ c ∈ s.data, c ≠ quoteCh ∧ c ≠ ',' := by
      intro c hc
      have h3 := List.any_eq_false.mp h2 c hc
      simp only [Bool.or_eq_true, decide_eq_true_eq, not_or] at h3
      exact ⟨h3.1.1.1, h3.1.1.2⟩
    rw [parseCSV_rawBody s.data [] acc after hall]
    rfl

theorem intercalate_go_append (sep : String) (as : List String) :
    ∀ acc1 acc2 : String, String.intercalate.go (acc1 ++ acc2) sep as
      = acc1 ++ String.intercalate.go acc2 sep as := by
  induction as with
  | nil => intro acc1 acc2; rfl
  | cons a as ih =>
    intro acc1 acc2
    show String.intercalate.go ((acc1 ++ acc2) ++ sep ++ a) sep as
      = acc1 ++ String.intercalate.go acc2 sep (a :: as)
    have h : (acc1 ++ acc2) ++ sep ++ a = acc1 ++ (acc2 ++ sep ++ a) := by
      apply String.ext
      simp [List.append_assoc]
    rw [h, ih acc1 (acc2 ++ sep ++ a)]
    rfl

theorem intercalate_cons (sep a : String) (rest : List String) (h : rest ≠ []) :
    String.intercalate sep (a :: rest) = a ++ sep ++ String.intercalate sep rest := by
  rcases rest with _ | ⟨b, bs⟩
  · exact absurd rfl h
  · show String.intercalate.go ((a ++ sep) ++ b) sep bs
      = (a ++ sep) ++ String.intercalate.go b sep bs
    exact intercalate_go_append sep bs (a ++ sep) b

theorem parseCSV_fieldsAux (rest : List String) : ∀ (s : String) (acc : List String),
    parseCSVLineAux
      ((String.intercalate "," ((s :: rest).map (fun t => escapeCSV (.str t)))).data)
      false [] acc = acc ++ s :: rest := by
  induction rest with
  | nil =>
    intro s acc
    rw [show String.intercalate "," ([s].map (fun t => escapeCSV (.str t)))
        = escapeCSV (.str s) from rfl]
    conv_lhs => rw [show (escapeCSV (.str s)).data
      = (escapeCSV (.str s)).data ++ [] from (List.append_nil _).symm]
    rw [parseCSV_field s acc [] (Or.inl rfl)]
    rfl
  | cons b bs ih =>
    intro s acc
    rw [List.map_cons, intercalate_cons "," (escapeCSV (.str s))
      (((b :: bs).map (fun t => escapeCSV (.str t)))) (by simp)]
    rw [String.data_append, String.data_append]
    rw [List.append_assoc]
    rw [show ("," : String).data ++
        (String.intercalate "," ((b :: bs).map (fun t => escapeCSV (.str t)))).data
      = ',' :: (String.intercalate ","
          ((b :: bs).map (fun t => escapeCSV (.str t)))).data from rfl]
    rw [parseCSV_field s acc _ (Or.inr ⟨_, rfl⟩)]
    rw [parseCSVLineAux_comma]
    rw [ih b (acc ++ [String.mk s.data])]
    rw [List.append_assoc]
    rfl

theorem orEmpty_str (s : String) : orEmpty (.str s) = .str s := by
  unfold orEmpty
  by_cases h : s = ""
  · subst h
    rfl
  · rw [if_pos (by simp [jsTruthy, h])]

theorem favoriteCsvCell_bool (b : Bool) :
    favoriteCsvCell (.bool b) = escapeCSV (.str (if b then "true" else "false")) := by
  cases b <;> rfl

theorem tagsCsvCell_strArr (tags : List String) :
    tagsCsvCell (.arr (tags.map JVal.str)) = String.intercalate ";" tags := by
  unfold tagsCsvCell
  rw [if_pos (show jsTruthy (.arr (tags.map JVal.str)) = true from rfl)]
  simp only [List.map_map]
  congr 1
  exact List.map_id' tags

set_option maxHeartbeats 4000000

/-- C8: the serialization half of the claim holds — `convertVaultToCsv`
emits the claimed header, one row per entry, tags joined by semicolons,
and the quoting/doubling escape is exactly inverted by `parseCSVLine`
(so the scenario row contains `test;example`) — but the round trip is
refuted: re-importing the generated CSV via `importVault` drops every
row, because `importCsvVault` builds entries with no `id` and a string
`favorite`, which fail `createVaultEntrySchema` validation; the scenario
then yields 0 imported, 1 skipped, `Invalid entry: Entrée 1`, and an
empty entry list instead of re-parsing the two tags. -/
theorem claim_C8_csv_row_correct_but_reimport_drops
    (title username password url notes category : String) (tags : List String)
    (favorite : Bool) (cms ums : Nat) :
    csvHeaderLine = "title,username,password,url,notes,category,tags,favorite" ∧
    convertVaultToCsv (.obj [("entries",
        .arr [c8Entry title username password url notes category tags favorite cms ums])]) =
      csvHeaderLine ++ String.mk [newlineCh] ++
        (csvRow (c8Entry title username password url notes category tags favorite cms ums)
          ++ String.mk [newlineCh]) ∧
    parseCSVLine (csvRow (c8Entry title username password url notes category tags
        favorite cms ums)) =
      [title, username, password, url, notes, category,
       String.intercalate ";" tags, if favorite then "true" else "false"] ∧
    containsSub ("test;example").data csvScenario.data = true ∧
    (importVault csvScenario none 0 "nid").importedCount = 0 ∧
    (importVault csvScenario none 0 "nid").skippedCount = 1 ∧
    (importVault csvScenario none 0 "nid").errors.map (fun er => er.message) =
      ["Invalid entry: Entrée 1"] ∧
    vaultEntries (importVault csvScenario none 0 "nid").vault = [] := by
  refine ⟨rfl, rfl, ?_, rfl, rfl, rfl, rfl, rfl⟩
  rw [show csvRow (c8Entry title username password url notes category tags favorite cms ums)
      = String.intercalate ","
        [escapeCSV (.str title),
         escapeCSV (orEmpty (.str username)),
         escapeCSV (orEmpty (.str password)),
         escapeCSV (orEmpty (.str url)),
         escapeCSV (orEmpty (.str notes)),
         escapeCSV (.str (categoryCsvCell (.str category))),
         escapeCSV (.str (tagsCsvCell (.arr (tags.map JVal.str)))),
         favoriteCsvCell (.bool favorite)] from rfl]
  rw [orEmpty_str username, orEmpty_str password, orEmpty_str url, orEmpty_str notes]
  rw [show categoryCsvCell (.str category) = category from rfl]
  rw [tagsCsvCell_strArr tags]
  rw [favoriteCsvCell_bool favorite]
  exact parseCSV_fieldsAux
    [username, password, url, notes, category,
     String.intercalate ";" tags, if favorite then "true" else "false"] title []

set_option maxHeartbeats 200000

theorem processCsvRows_errors (headers : List String) (now : Nat) :
    ∀ lines i, (processCsvRows headers now lines i).2.2.2 = [] ↔
      (processCsvRows headers now lines i).2.2.1 = 0 := by
  intro lines
  induction lines with
  | nil => intro i; simp [processCsvRows]
  | cons line rest ih =>
    intro i
    rw [processCsvRows_cons]
    have := ih (i + 1)
    by_cases hl : (parseCSVLine line).length ≠ headers.length
    · rw [if_pos hl]
      simp
    · rw [if_neg hl]
      by_cases hv : (validateVaultEntry (csvRowToEntry headers (parseCSVLine line) now)).isValid
      · rw [if_pos hv]
        exact this
      · rw [if_neg hv]
        simp

theorem importJsonFallback_counts (v : JVal) :
    (importJsonFallback v).importedCount + (importJsonFallback v).skippedCount
        = entriesProcessedCount v ∧
      ((importJsonFallback v).errors = [] → (importJsonFallback v).skippedCount = 0) := by
  simp only [importJsonFallback, entriesProcessedCount]
  rcases he : jsEnumEntries (jsGet (deserializeVault v) "entries") with e | l
  · exact ⟨rfl, fun h => List.noConfusion h⟩
  simp only []
  rcases hr : processImportEntries invalidEntryMsg l 0 with ⟨a, b, c, d⟩
  have hcount := processImportEntries_count invalidEntryMsg l 0
  have herrs := processImportEntries_errors invalidEntryMsg l 0
  rw [hr] at hcount herrs
  exact ⟨hcount, fun h => herrs.mp h⟩

theorem importEncryptedVault_counts (data : String) (pw : Option String) :
    (importEncryptedVault data pw).importedCount +
        (importEncryptedVault data pw).skippedCount = encProcessedCount data pw ∧
      ((importEncryptedVault data pw).errors = [] →
        (importEncryptedVault data pw).skippedCount = 0) := by
  simp only [importEncryptedVault, importEncryptedVaultI, encProcessedCount,
    entriesProcessedCount]
  rcases hp : parseJSON data with e | v
  · exact ⟨rfl, fun h => List.noConfusion h⟩
  simp only []
  cases hv : vaultFileSchemaOk v
  · exact ⟨rfl, fun h => List.noConfusion h⟩
  by_cases hpw : pw = none ∨ pw = some ""
  · rw [if_pos hpw, if_pos hpw]
    exact ⟨rfl, fun h => List.noConfusion h⟩
  rw [if_neg hpw, if_neg hpw]
  rcases hd : decryptVault (match jsGet v "data" with | .str s => s | _ => "")
      (pw.getD "") with e2 | dec
  · exact ⟨rfl, fun h => List.noConfusion h⟩
  simp only []
  rcases hp2 : parseJSON dec with e3 | vd
  · exact ⟨rfl, fun h => List.noConfusion h⟩
  simp only []
  rcases he : jsEnumEntries (jsGet (deserializeVault vd) "entries") with e4 | l
  · exact ⟨rfl, fun h => List.noConfusion h⟩
  simp only []
  rcases hr : processImportEntries invalidEntryMsg l 0 with ⟨a, b, c, d⟩
  have hcount := processImportEntries_count invalidEntryMsg l 0
  have herrs := processImportEntries_errors invalidEntryMsg l 0
  rw [hr] at hcount herrs
  exact ⟨hcount, fun h => herrs.mp h⟩

theorem importJsonVault_counts (data : String) (now : Nat) (newId : String) :
    (importJsonVault data now newId).importedCount +
        (importJsonVault data now newId).skippedCount = jsonProcessedCount data ∧
      ((importJsonVault data now newId).errors = [] →
        (importJsonVault data now newId).skippedCount = 0) := by
  simp only [importJsonVault, jsonProcessedCount]
  rcases hp : parseJSON data with e | v
  · exact ⟨rfl, fun h => List.noConfusion h⟩
  simp only []
  rcases v with _ | _ | b | n | s | dt | xs | fs
  case arr =>
    try simp only []
    rcases hr : processImportEntries invalidEntryAtIndexMsg xs 0 with ⟨a, b, c, d⟩
    have hcount := processImportEntries_count invalidEntryAtIndexMsg xs 0
    have herrs := processImportEntries_errors invalidEntryAtIndexMsg xs 0
    rw [hr] at hcount herrs
    exact ⟨hcount, fun h => herrs.mp h⟩
  all_goals exact importJsonFallback_counts _

theorem importCsvVault_counts (data : String) (now : Nat) (newId : String) :
    (importCsvVault data now newId).importedCount +
        (importCsvVault data now newId).skippedCount = csvProcessedCount data ∧
      ((importCsvVault data now newId).errors = [] →
        (importCsvVault data now newId).skippedCount = 0) := by
  simp only [importCsvVault, csvProcessedCount]
  rcases hl : (splitLines data).filter (fun line => (jsTrim line).length > 0)
    with _ | ⟨headerLine, rows⟩
  · exact ⟨rfl, fun h => List.noConfusion h⟩
  simp only []
  cases hh : csvHeadersOk ((jsSplitOn headerLine ",").map jsTrim)
  · exact ⟨rfl, fun h => List.noConfusion h⟩
  · try simp only []
    rcases hr : processCsvRows ((jsSplitOn headerLine ",").map jsTrim) now rows 1
      with ⟨a, b, c, d⟩
    have hcount := processCsvRows_count ((jsSplitOn headerLine ",").map jsTrim) now rows 1
    have herrs := processCsvRows_errors ((jsSplitOn headerLine ",").map jsTrim) now rows 1
    rw [hr] at hcount herrs
    exact ⟨hcount, fun h => herrs.mp h⟩

/-- C9: `importVault` is a total function in the embedding (every
failure is a returned value, not an exception), its counters satisfy
`importedCount + skippedCount = number of entry records processed`
(`importProcessedCount` mirrors the dispatch and is 0 on every path
that fails before the entry loop), every skipped entry is reported (an
empty `errors` array implies nothing was skipped), and an input matching
no supported format yields the caught `Unsupported import format`
failure in `errors`. -/
theorem claim_C9_import_counts_and_reported_failures (data : String)
    (pw : Option String) (now : Nat) (newId : String) :
    (importVault data pw now newId).importedCount +
        (importVault data pw now newId).skippedCount =
        importProcessedCount data pw now newId ∧
    ((importVault data pw now newId).errors = [] →
      (importVault data pw now newId).skippedCount = 0) ∧
    (¬(jsStartsWith data "\x7b" ∧
        containsSub (quoteCh :: 'd' :: 'a' :: 't' :: 'a' :: [quoteCh]) data.data ∧
        containsSub (quoteCh :: 'v' :: 'e' :: 'r' :: 's' :: 'i' :: 'o' :: 'n' :: [quoteCh])
          data.data) →
      ¬(jsStartsWith data "\x7b" ∨ jsStartsWith data "[") →
      ¬(data.data.contains ',' ∧
        (data.data.contains newlineCh ∨ data.data.contains carriageCh)) →
      (importVault data pw now newId).errors =
        [⟨none, "Import failed: Unsupported import format", []⟩]) := by
  refine ⟨?_, ?_, ?_⟩
  · unfold importVault importProcessedCount
    split
    · exact (importEncryptedVault_counts data pw).1
    · split
      · exact (importJsonVault_counts data now newId).1
      · split
        · exact (importCsvVault_counts data now newId).1
        · rfl
  · unfold importVault
    split
    · exact (importEncryptedVault_counts data pw).2
    · split
      · exact (importJsonVault_counts data now newId).2
      · split
        · exact (importCsvVault_counts data now newId).2
        · intro h
          exact absurd h (by simp [mkImportFailure])
  · intro h1 h2 h3
    unfold importVault
    rw [if_neg h1, if_neg h2, if_neg h3]
    rfl

/-- C9 witness at concrete inputs: an unsupported-format input reported
through `errors`, and a clean JSON-array import with nothing skipped. -/
theorem claim_C9_witness :
    (importVault "garbage" none 5 "nid").errors =
      [⟨none, "Import failed: Unsupported import format", []⟩] ∧
    (importVault "[]" none 5 "nid").skippedCount = 0 :=
  ⟨(claim_C9_import_counts_and_reported_failures "garbage" none 5 "nid").2.2
      (by decide) (by decide) (by decide),
   (claim_C9_import_counts_and_reported_failures "[]" none 5 "nid").2.1 rfl⟩

/-! Object-field algebra, and the timestamp round trip (claim C7). -/

theorem objGet_objSet_self (fs : List (String × JVal)) (k : String) (v : JVal) :
    objGet (objSet fs k v) k = v := by
  induction fs with
  | nil => simp [objSet, objGet]
  | cons p fs ih =>
    obtain ⟨k1, v1⟩ := p
    by_cases h : k1 = k
    · simp [objSet, objGet, h]
    · simp only [objSet, objGet, if_neg h]
      exact ih

theorem objGet_objSet_other (fs : List (String × JVal)) (k : String) (v : JVal)
    (k2 : String) (h : k2 ≠ k) :
    objGet (objSet fs k v) k2 = objGet fs k2 := by
  induction fs with
  | nil =>
    simp only [objSet, objGet]
    rw [if_neg (fun hh => h hh.symm)]
  | cons p fs ih =>
    obtain ⟨k1, v1⟩ := p
    by_cases hk : k1 = k
    · subst hk
      simp only [objSet, if_pos rfl, objGet]
      rw [if_neg (fun hh => h hh.symm), if_neg (fun hh => h hh.symm)]
    · simp only [objSet, if_neg hk, objGet]
      by_cases h12 : k1 = k2
      · rw [if_pos h12, if_pos h12]
      · rw [if_neg h12, if_neg h12]
        exact ih

theorem objSet_objSet_self (fs : List (String × JVal)) (k : String) (v w : JVal) :
    objSet (objSet fs k v) k w = objSet fs k w := by
  induction fs with
  | nil => simp [objSet]
  | cons p fs ih =>
    obtain ⟨k1, v1⟩ := p
    by_cases h : k1 = k
    · simp [objSet, h]
    · simp only [objSet, if_neg h]
      rw [ih]

theorem objSet_comm (fs : List (String × JVal)) (k1 k2 : String) (v1 v2 : JVal)
    (h12 : k1 ≠ k2) (h1 : objGet fs k1 ≠ .undef) :
    objSet (objSet fs k1 v1) k2 v2 = objSet (objSet fs k2 v2) k1 v1 := by
  induction fs with
  | nil => exact absurd rfl h1
  | cons p fs ih =>
    obtain ⟨ka, va⟩ := p
    by_cases ha1 : ka = k1
    · subst ha1
      rw [show objSet ((ka, va) :: fs) ka v1 = (ka, v1) :: fs from by simp [objSet]]
      rw [show objSet ((ka, v1) :: fs) k2 v2 = (ka, v1) :: objSet fs k2 v2 from by
        simp [objSet, h12]]
      rw [show objSet ((ka, va) :: fs) k2 v2 = (ka, va) :: objSet fs k2 v2 from by
        simp [objSet, h12]]
      rw [show objSet ((ka, va) :: objSet fs k2 v2) ka v1 = (ka, v1) :: objSet fs k2 v2
        from by simp [objSet]]
    · by_cases ha2 : ka = k2
      · subst ha2
        rw [show objSet ((ka, va) :: fs) k1 v1 = (ka, va) :: objSet fs k1 v1 from by
          simp [objSet, ha1]]
        rw [show objSet ((ka, va) :: objSet fs k1 v1) ka v2 = (ka, v2) :: objSet fs k1 v1
          from by simp [objSet]]
        rw [show objSet ((ka, va) :: fs) ka v2 = (ka, v2) :: fs from by simp [objSet]]
        rw [show objSet ((ka, v2) :: fs) k1 v1 = (ka, v2) :: objSet fs k1 v1 from by
          simp [objSet, ha1]]
      · have h1' : objGet fs k1 ≠ .undef := by
          simpa [objGet, ha1] using h1
        rw [show objSet ((ka, va) :: fs) k1 v1 = (ka, va) :: objSet fs k1 v1 from by
          simp [objSet, ha1]]
        rw [show objSet ((ka, va) :: objSet fs k1 v1) k2 v2
            = (ka, va) :: objSet (objSet fs k1 v1) k2 v2 from by simp [objSet, ha2]]
        rw [show objSet ((ka, va) :: fs) k2 v2 = (ka, va) :: objSet fs k2 v2 from by
          simp [objSet, ha2]]
        rw [show objSet ((ka, va) :: objSet fs k2 v2) k1 v1
            = (ka, va) :: objSet (objSet fs k2 v2) k1 v1 from by simp [objSet, ha1]]
        rw [ih h1']

theorem objSet_objGet_id (fs : List (String × JVal)) (k : String) (v : JVal)
    (hget : objGet fs k = v) (hv : v ≠ .undef) : objSet fs k v = fs := by
  induction fs with
  | nil => exact absurd hget.symm hv
  | cons p fs ih =>
    obtain ⟨k1, v1⟩ := p
    by_cases h : k1 = k
    · simp only [objGet, if_pos h] at hget
      simp only [objSet, if_pos h, hget]
    · simp only [objGet, if_neg h] at hget
      simp only [objSet, if_neg h]
      rw [ih hget]

theorem validDateField_spec (v : JVal) (h : validDateField v = true) :
    ∃ ms, v = .date (.valid ms) ∧ ms ≤ maxDateMs := by
  match v with
  | .date (.valid ms) =>
    refine ⟨ms, rfl, ?_⟩
    simpa [validDateField] using h
  | .date .invalid => exact Bool.noConfusion h
  | .null | .undef | .bool _ | .num _ | .str _ | .arr _ | .obj _ =>
    exact Bool.noConfusion h

theorem date_ne_undef (d : JSDate) : (JVal.date d) ≠ .undef :=
  fun h => JVal.noConfusion h

theorem arr_ne_undef (xs : List JVal) : (JVal.arr xs) ≠ .undef :=
  fun h => JVal.noConfusion h

theorem serializeEntry_ok (fs : List (String × JVal)) (m1 m2 : Nat)
    (hc : objGet fs "createdAt" = .date (.valid m1)) (h1 : m1 ≤ maxDateMs)
    (hu : objGet fs "updatedAt" = .date (.valid m2)) (h2 : m2 ≤ maxDateMs) :
    serializeEntry (.obj fs) = .ok (.obj (objSet (objSet fs "createdAt"
      (.str (toISOString m1))) "updatedAt" (.str (toISOString m2)))) := by
  simp only [serializeEntry, spreadFields, jsGet, jvSet]
  rw [hc]
  simp only [jsToISOStringCall]
  rw [if_pos h1]
  simp only [jsGet, jvSet]
  rw [objGet_objSet_other fs "createdAt" (.str (toISOString m1)) "updatedAt" (by decide)]
  rw [hu]
  simp only [jsToISOStringCall]
  rw [if_pos h2]

theorem deserializeEntry_serialized (fs : List (String × JVal)) (m1 m2 : Nat)
    (hc : objGet fs "createdAt" = .date (.valid m1)) (h1 : m1 ≤ maxDateMs)
    (hu : objGet fs "updatedAt" = .date (.valid m2)) (h2 : m2 ≤ maxDateMs) :
    deserializeEntry (.obj (objSet (objSet fs "createdAt" (.str (toISOString m1)))
      "updatedAt" (.str (toISOString m2)))) = .obj fs := by
  have hpresU : objGet (objSet fs "createdAt" (.str (toISOString m1))) "updatedAt"
      ≠ .undef := by
    rw [objGet_objSet_other _ _ _ _ (by decide), hu]
    exact date_ne_undef _
  simp only [deserializeEntry, spreadFields, jsGet]
  rw [objGet_objSet_other _ _ _ _ (by decide), objGet_objSet_self]
  simp only [newDateFromString]
  rw [parseISO_toISOString m1 h1]
  simp only [jvSet, jsGet]
  rw [objGet_objSet_other _ _ _ _ (by decide), objGet_objSet_self]
  simp only [newDateFromString]
  rw [parseISO_toISOString m2 h2]
  simp only [jvSet]
  have e1 : objSet (objSet (objSet fs "createdAt" (.str (toISOString m1)))
        "updatedAt" (.str (toISOString m2))) "createdAt" (.date (.valid m1))
      = objSet (objSet fs "createdAt" (.date (.valid m1)))
        "updatedAt" (.str (toISOString m2)) := by
    rw [objSet_comm _ "updatedAt" "createdAt" _ _ (by decide) hpresU]
    rw [objSet_objSet_self]
  rw [e1, objSet_objSet_self]
  rw [objSet_objGet_id fs "createdAt" _ hc (date_ne_undef _)]
  rw [objSet_objGet_id fs "updatedAt" _ hu (date_ne_undef _)]

theorem entry_roundtrip (e : JVal) (h : entryShapeOk e = true) :
    ∃ se, serializeEntry e = .ok se ∧
      isoTimestamp (jsGet se "createdAt") ∧ isoTimestamp (jsGet se "updatedAt") ∧
      deserializeEntry se = e := by
  rcases e with _ | _ | b | n | s | dt | xs | fs
  case obj =>
    simp only [entryShapeOk, Bool.and_eq_true] at h
    obtain ⟨m1, hc, h1⟩ := validDateField_spec _ h.1
    obtain ⟨m2, hu, h2⟩ := validDateField_spec _ h.2
    refine ⟨_, serializeEntry_ok fs m1 m2 hc h1 hu h2, ?_, ?_,
      deserializeEntry_serialized fs m1 m2 hc h1 hu h2⟩
    · refine ⟨m1, h1, ?_⟩
      simp only [jsGet]
      rw [objGet_objSet_other _ _ _ _ (by decide), objGet_objSet_self]
    · refine ⟨m2, h2, ?_⟩
      simp only [jsGet]
      rw [objGet_objSet_self]
  all_goals exact Bool.noConfusion h

theorem mapM_serialize_entries (es : List JVal) (h : ∀ e ∈ es, entryShapeOk e = true) :
    ∃ es2, es.mapM serializeEntry = .ok es2 ∧
      (∀ e2 ∈ es2, isoTimestamp (jsGet e2 "createdAt") ∧
        isoTimestamp (jsGet e2 "updatedAt")) ∧
      es2.map deserializeEntry = es := by
  induction es with
  | nil => exact ⟨[], rfl, by simp, rfl⟩
  | cons e es ih =>
    obtain ⟨se, hse, hiso1, hiso2, hde⟩ := entry_roundtrip e (h e (List.mem_cons_self e es))
    obtain ⟨es2, hmapm, hiso, hdes⟩ := ih (fun x hx => h x (List.mem_cons_of_mem e hx))
    refine ⟨se :: es2, ?_, ?_, ?_⟩
    · rw [List.mapM_cons, hse, hmapm]
      rfl
    · intro e2 he2
      rcases List.mem_cons.mp he2 with rfl | h2
      · exact ⟨hiso1, hiso2⟩
      · exact hiso e2 h2
    · rw [List.map_cons, hde, hdes]

theorem serializeVault_ok (fs : List (String × JVal)) (es es2 : List JVal) (m1 m2 : Nat)
    (hc : objGet fs "createdAt" = .date (.valid m1)) (h1 : m1 ≤ maxDateMs)
    (hu : objGet fs "updatedAt" = .date (.valid m2)) (h2 : m2 ≤ maxDateMs)
    (hE : objGet fs "entries" = .arr es)
    (hmapm : es.mapM serializeEntry = .ok es2) :
    serializeVault (.obj fs) = .ok (.obj (objSet (objSet (objSet fs "createdAt"
      (.str (toISOString m1))) "updatedAt" (.str (toISOString m2)))
      "entries" (.arr es2))) := by
  simp only [serializeVault, spreadFields, jsGet, jvSet]
  rw [hc]
  simp only [jsToISOStringCall]
  rw [if_pos h1]
  simp only [jsGet, jvSet]
  rw [objGet_objSet_other _ _ _ _ (by decide), hu]
  simp only [jsToISOStringCall]
  rw [if_pos h2]
  simp only [jsGet, jvSet]
  rw [objGet_objSet_other _ _ _ _ (by decide), objGet_objSet_other _ _ _ _ (by decide), hE]
  simp only []
  rw [hmapm]

theorem deserializeVault_serialized (fs : List (String × JVal)) (es es2 : List JVal)
    (m1 m2 : Nat)
    (hc : objGet fs "createdAt" = .date (.valid m1)) (h1 : m1 ≤ maxDateMs)
    (hu : objGet fs "updatedAt" = .date (.valid m2)) (h2 : m2 ≤ maxDateMs)
    (hE : objGet fs "entries" = .arr es)
    (hdes : es2.map deserializeEntry = es) :
    deserializeVault (.obj (objSet (objSet (objSet fs "createdAt"
      (.str (toISOString m1))) "updatedAt" (.str (toISOString m2)))
      "entries" (.arr es2))) = .obj fs := by
  have hpresU : objGet (objSet fs "createdAt" (.str (toISOString m1))) "updatedAt"
      ≠ .undef := by
    rw [objGet_objSet_other _ _ _ _ (by decide), hu]
    exact date_ne_undef _
  have hpresE : objGet (objSet (objSet fs "createdAt" (.str (toISOString m1)))
      "updatedAt" (.str (toISOString m2))) "entries" ≠ .undef := by
    rw [objGet_objSet_other _ _ _ _ (by decide),
      objGet_objSet_other _ _ _ _ (by decide), hE]
    exact arr_ne_undef _
  simp only [deserializeVault, spreadFields, jsGet]
  rw [objGet_objSet_other _ _ _ _ (by decide), objGet_objSet_other _ _ _ _ (by decide),
    objGet_objSet_self]
  simp only [newDateFromString]
  rw [parseISO_toISOString m1 h1]
  simp only [jvSet, jsGet]
  rw [objGet_objSet_other _ _ _ _ (by decide), objGet_objSet_other _ _ _ _ (by decide),
    objGet_objSet_self]
  simp only [newDateFromString]
  rw [parseISO_toISOString m2 h2]
  simp only [jvSet, jsGet]
  rw [objGet_objSet_other _ _ _ _ (by decide), objGet_objSet_other _ _ _ _ (by decide),
    objGet_objSet_self]
  show JVal.obj (objSet (objSet (objSet (objSet (objSet (objSet fs "createdAt"
      (.str (toISOString m1))) "updatedAt" (.str (toISOString m2))) "entries"
      (.arr es2)) "createdAt" (.date (.valid m1))) "updatedAt" (.date (.valid m2)))
      "entries" (.arr (es2.map deserializeEntry))) = .obj fs
  rw [hdes]
  have ea : objSet (objSet (objSet (objSet fs "createdAt" (.str (toISOString m1)))
        "updatedAt" (.str (toISOString m2))) "entries" (.arr es2)) "createdAt"
        (.date (.valid m1))
      = objSet (objSet (objSet fs "createdAt" (.date (.valid m1)))
        "updatedAt" (.str (toISOString m2))) "entries" (.arr es2) := by
    rw [objSet_comm _ "entries" "createdAt" _ _ (by decide) hpresE]
    rw [objSet_comm _ "updatedAt" "createdAt" _ _ (by decide) hpresU]
    rw [objSet_objSet_self]
  rw [ea]
  have hpresE2 : objGet (objSet (objSet fs "createdAt" (.date (.valid m1)))
      "updatedAt" (.str (toISOString m2))) "entries" ≠ .undef := by
    rw [objGet_objSet_other _ _ _ _ (by decide),
      objGet_objSet_other _ _ _ _ (by decide), hE]
    exact arr_ne_undef _
  have eb : objSet (objSet (objSet (objSet fs "createdAt" (.date (.valid m1)))
        "updatedAt" (.str (toISOString m2))) "entries" (.arr es2)) "updatedAt"
        (.date (.valid m2))
      = objSet (objSet (objSet fs "createdAt" (.date (.valid m1)))
        "updatedAt" (.date (.valid m2))) "entries" (.arr es2) := by
    rw [objSet_comm _ "entries" "updatedAt" _ _ (by decide) hpresE2]
    rw [objSet_objSet_self]
  rw [eb, objSet_objSet_self]
  rw [objSet_objGet_id fs "createdAt" _ hc (date_ne_undef _)]
  rw [objSet_objGet_id fs "updatedAt" _ hu (date_ne_undef _)]
  rw [objSet_objGet_id fs "entries" _ hE (arr_ne_undef _)]

/-- C7: `serializeVault` is a pure function of its input (determinism is
by construction in the embedding), and on every well-shaped vault
(`vaultShapeOk`: an object whose `createdAt`/`updatedAt` and those of
every entry are valid in-range `Date`s) it succeeds, normalizing every
timestamp field of the vault and of each entry to the single fixed
`toISOString` format (`stampsISO`); `deserializeVault` inverts it
exactly — millisecond-precise timestamps and all other fields — and
re-serializing the just-deserialized vault is identical (hence
byte-identical once rendered). -/
theorem claim_C7_serializer_roundtrip (vault : JVal) (h : vaultShapeOk vault = true) :
    ∃ sv, serializeVault vault = .ok sv ∧ stampsISO sv ∧
      deserializeVault sv = vault ∧ serializeVault (deserializeVault sv) = .ok sv := by
  rcases vault with _ | _ | b | n | s | dt | xs | fs
  case obj =>
    simp only [vaultShapeOk, jsGet, Bool.and_eq_true] at h
    obtain ⟨⟨hvc, hvu⟩, hent⟩ := h
    obtain ⟨m1, hc, h1⟩ := validDateField_spec _ hvc
    obtain ⟨m2, hu, h2⟩ := validDateField_spec _ hvu
    rcases hE : objGet fs "entries" with _ | _ | b2 | n2 | s2 | dt2 | es | gs2
    case arr =>
      rw [hE] at hent
      have h3 : es.all entryShapeOk = true := hent
      have hall : ∀ e ∈ es, entryShapeOk e = true := by
        intro e he
        exact List.all_eq_true.mp h3 e he
      obtain ⟨es2, hmapm, hiso, hdes⟩ := mapM_serialize_entries es hall
      refine ⟨_, serializeVault_ok fs es es2 m1 m2 hc h1 hu h2 hE hmapm, ?_,
        deserializeVault_serialized fs es es2 m1 m2 hc h1 hu h2 hE hdes, ?_⟩
      · refine ⟨⟨m1, h1, ?_⟩, ⟨m2, h2, ?_⟩, ?_⟩
        · simp only [jsGet]
          rw [objGet_objSet_other _ _ _ _ (by decide),
            objGet_objSet_other _ _ _ _ (by decide), objGet_objSet_self]
        · simp only [jsGet]
          rw [objGet_objSet_other _ _ _ _ (by decide), objGet_objSet_self]
        · intro e2 he2
          have hve : vaultEntries (JVal.obj (objSet (objSet (objSet fs "createdAt"
              (.str (toISOString m1))) "updatedAt" (.str (toISOString m2)))
              "entries" (.arr es2))) = es2 := by
            simp only [vaultEntries, jsGet]
            rw [objGet_objSet_self]
          rw [hve] at he2
          exact hiso e2 he2
      · rw [deserializeVault_serialized fs es es2 m1 m2 hc h1 hu h2 hE hdes]
        exact serializeVault_ok fs es es2 m1 m2 hc h1 hu h2 hE hmapm
    all_goals rw [hE] at hent
    all_goals exact Bool.noConfusion hent
  all_goals exact Bool.noConfusion h

/-- C7 witness at a concrete vault. -/
theorem claim_C7_witness :
    ∃ sv, serializeVault c7Vault = .ok sv ∧ stampsISO sv ∧
      deserializeVault sv = c7Vault ∧ serializeVault (deserializeVault sv) = .ok sv :=
  claim_C7_serializer_roundtrip c7Vault (by decide)

theorem foldr_escape_free (cs : List Char) (h : ∀ c ∈ cs, escapeChars c = [c]) :
    cs.foldr (fun c acc => escapeChars c ++ acc) [quoteCh] = cs ++ [quoteCh] := by
  induction cs with
  | nil => rfl
  | cons c cs ih =>
    simp only [List.foldr_cons, List.cons_append]
    rw [h c (List.mem_cons_self c cs), ih (fun x hx => h x (List.mem_cons_of_mem c hx))]
    rfl

theorem jsonStringify_jwk (ksData : List Char) (h : ∀ c ∈ ksData, escapeChars c = [c]) :
    (jsonStringify (jwkObj ksData)).data = jwkChars ksData := by
  have hq : jsonQuote (String.mk ksData) = String.mk (quoteCh :: (ksData ++ [quoteCh])) := by
    unfold jsonQuote
    rw [show (String.mk ksData).data = ksData from rfl, foldr_escape_free ksData h]
  have h1 : jsonStringify (jwkObj ksData)
      = "\x7b" ++ String.intercalate ","
          ["\"alg\":\"A256GCM\"", "\"ext\":true",
           "\"k\":" ++ jsonQuote (String.mk ksData),
           "\"key_ops\":[\"encrypt\",\"decrypt\"]", "\"kty\":\"oct\""] ++ "\x7d" := rfl
  rw [h1, hq]
  rw [intercalate_cons _ _ _ (by simp), intercalate_cons _ _ _ (by simp),
    intercalate_cons _ _ _ (by simp), intercalate_cons _ _ _ (by simp)]
  show _ = jwkChars ksData
  simp only [String.data_append]
  simp only [jwkChars, jwkP1, jwkP2]
  simp [List.append_assoc]
  exact ⟨rfl, rfl⟩

theorem parseStrBody_append (cs : List Char) (tail : List Char)
    (h : ∀ c ∈ cs, c ≠ quoteCh ∧ c ≠ backslashCh) :
    parseStrBody (cs ++ quoteCh :: tail) = .ok (cs, tail) := by
  induction cs with
  | nil => rfl
  | cons c cs ih =>
    obtain ⟨h1, h2⟩ := h c (List.mem_cons_self c cs)
    rw [List.cons_append, parseStrBody.eq_def]
    simp only []
    rw [if_neg h1, if_neg h2]
    rw [ih (fun x hx => h x (List.mem_cons_of_mem c hx))]

theorem parseJ_string (f : Nat) (X : List Char) :
    parseJ (f + 1) (quoteCh :: X)
      = match parseStrBody X with
        | .ok (body, rem) => .ok (.str (String.mk body), rem)
        | .error msg => .error msg := rfl

theorem parseJ_string_append (g : Nat) (cs tail : List Char)
    (h : ∀ c ∈ cs, c ≠ quoteCh ∧ c ≠ backslashCh) :
    parseJ (g + 1) (quoteCh :: (cs ++ quoteCh :: tail)) = .ok (.str (String.mk cs), tail) := by
  rw [parseJ_string, parseStrBody_append cs tail h]

theorem parseJ_jwk_bridge (f : Nat) (ksData : List Char) :
    parseJ (f + 9) (jwkChars ksData)
      = match parseJ ((f + 4) + 1) (quoteCh :: (ksData ++ quoteCh :: jwkP2)) with
        | .error msg => .error msg
        | .ok (v, rest4) =>
          match skipWs rest4 with
          | ',' :: rest5 => parseMembers (f + 5) rest5
              (objSet [("alg", JVal.str "A256GCM"), ("ext", JVal.bool true)] "k" v)
          | '\x7d' :: rest5 => .ok (.obj (objSet [("alg", JVal.str "A256GCM"),
              ("ext", JVal.bool true)] "k" v), rest5)
          | _ => .error "Expected comma or brace in JSON object" := rfl

theorem parseJ_jwk (f : Nat) (ksData : List Char)
    (h : ∀ c ∈ ksData, c ≠ quoteCh ∧ c ≠ backslashCh) :
    parseJ (f + 9) (jwkChars ksData) = .ok (jwkObj ksData, []) := by
  rw [parseJ_jwk_bridge f ksData, parseJ_string_append (f + 4) ksData jwkP2 h]
  rfl

theorem parseJSON_jwk (ksData : List Char)
    (h : ∀ c ∈ ksData, c ≠ quoteCh ∧ c ≠ backslashCh) :
    parseJSON (String.mk (jwkChars ksData)) = .ok (jwkObj ksData) := by
  unfold parseJSON
  rw [show (String.mk (jwkChars ksData)).data = jwkChars ksData from rfl]
  rw [show (jwkChars ksData).length + 1 = (ksData.length + 71) + 9 from by
    have h1 : jwkP1.length = 33 := rfl
    have h2 : jwkP2.length = 45 := rfl
    simp only [jwkChars, List.length_append, List.length_cons, h1, h2]
    omega]
  rw [parseJ_jwk (ksData.length + 71) ksData h]
  rfl

theorem b64UrlChar_escape_free : ∀ n, n < 64 → escapeChars (b64CharUrl n) = [b64CharUrl n] := by
  decide

theorem b64UrlChar_not_special : ∀ n, n < 64 →
    b64CharUrl n ≠ quoteCh ∧ b64CharUrl n ≠ backslashCh := by
  decide

theorem b64UrlChar_latin1 : ∀ n, n < 64 → (b64CharUrl n).toNat ≤ 255 := by
  decide

theorem importKeyJwk_jwkObj (key : CryptoKey)
    (hlen : key.keyBytes.length = 32) (hbytes : ∀ b ∈ key.keyBytes, b < 256) :
    importKeyJwk (jwkObj (b64EncodeChunks b64CharUrl key.keyBytes)) = .ok key := by
  show (match b64DecodeChunks b64ValUrl
        (String.mk (b64EncodeChunks b64CharUrl key.keyBytes)).data with
      | some bytes =>
        if bytes.length = 32 ∨ bytes.length = 24 ∨ bytes.length = 16 then
          Except.ok (⟨bytes⟩ : CryptoKey)
        else .error "DataError"
      | none => .error "DataError") = .ok key
  rw [show (String.mk (b64EncodeChunks b64CharUrl key.keyBytes)).data
      = b64EncodeChunks b64CharUrl key.keyBytes from rfl]
  rw [b64DecodeChunks_encode b64CharUrl b64ValUrl b64ValUrl_b64CharUrl
    key.keyBytes hbytes]
  simp only []
  rw [if_pos (Or.inl hlen)]

/-- C6: for every 32-byte key (the kind `deriveKey` produces),
`stringToKey (keyToString key)` recovers exactly the same key material,
and the recovered key round-trips again — three repeated round trips all
return the original key, so it behaves identically for subsequent
encrypt/decrypt calls.  Conversely a successful `stringToKey` is never
silently wrong: it can only return the key whose material is the
base64url decoding of the `k` field of the JWK that the input string
decodes and parses to (with an AES key length), and on any other input
`stringToKey` fails with the `Failed to deserialize key:` error. -/
theorem claim_C6_key_serialization_roundtrip (key : CryptoKey)
    (hlen : key.keyBytes.length = 32) (hbytes : ∀ b ∈ key.keyBytes, b < 256) :
    (∃ s, keyToString key = .ok s ∧ stringToKey s = .ok key ∧
      ((stringToKey s).bind (fun k1 => (keyToString k1).bind stringToKey)).bind
        (fun k2 => (keyToString k2).bind stringToKey) = .ok key) ∧
    (∀ t k2, stringToKey t = .ok k2 →
      ∃ jwkString jwk, jsAtob t = .ok jwkString ∧ parseJSON jwkString = .ok jwk ∧
        importKeyJwk jwk = .ok k2 ∧
        (k2.keyBytes.length = 32 ∨ k2.keyBytes.length = 24 ∨ k2.keyBytes.length = 16)) ∧
    (∀ t, (∃ k2, stringToKey t = .ok k2) ∨
      ∃ e, stringToKey t = .error ("Failed to deserialize key: " ++ e)) := by
  have hmem : ∀ c ∈ b64EncodeChunks b64CharUrl key.keyBytes, ∃ n, n < 64 ∧ c = b64CharUrl n :=
    fun c hc => b64EncodeChunks_mem b64CharUrl key.keyBytes c hbytes hc
  have hesc : ∀ c ∈ b64EncodeChunks b64CharUrl key.keyBytes, escapeChars c = [c] := by
    intro c hc
    obtain ⟨n, hn, rfl⟩ := hmem c hc
    exact b64UrlChar_escape_free n hn
  have hgood : ∀ c ∈ b64EncodeChunks b64CharUrl key.keyBytes,
      c ≠ quoteCh ∧ c ≠ backslashCh := by
    intro c hc
    obtain ⟨n, hn, rfl⟩ := hmem c hc
    exact b64UrlChar_not_special n hn
  have hstr : jsonStringify (jwkObj (b64EncodeChunks b64CharUrl key.keyBytes))
      = String.mk (jwkChars (b64EncodeChunks b64CharUrl key.keyBytes)) :=
    String.ext (jsonStringify_jwk _ hesc)
  have h255 : (jsonStringify (jwkObj (b64EncodeChunks b64CharUrl key.keyBytes))).data.all
      (fun c => c.toNat ≤ 255) = true := by
    rw [jsonStringify_jwk _ hesc]
    simp only [jwkChars, List.all_append, List.all_cons, Bool.and_eq_true]
    refine ⟨by decide, ?_, by decide, by decide⟩
    rw [List.all_eq_true]
    intro c hc
    obtain ⟨n, hn, rfl⟩ := hmem c hc
    simpa using b64UrlChar_latin1 n hn
  have hbt : ∃ b, jsBtoa (jsonStringify (jwkObj (b64EncodeChunks b64CharUrl key.keyBytes)))
      = .ok b := by
    unfold jsBtoa
    rw [h255]
    exact ⟨_, rfl⟩
  obtain ⟨b, hb⟩ := hbt
  have hat : jsAtob b
      = .ok (jsonStringify (jwkObj (b64EncodeChunks b64CharUrl key.keyBytes))) := by
    have h2 := jsAtob_jsBtoa (jsonStringify (jwkObj (b64EncodeChunks b64CharUrl
      key.keyBytes))) h255
    rw [hb] at h2
    simpa using h2
  have hkts : keyToString key = .ok b := hb
  have hstk : stringToKey b = .ok key := by
    unfold stringToKey
    rw [hat]
    simp only []
    rw [hstr, parseJSON_jwk _ hgood]
    simp only []
    rw [importKeyJwk_jwkObj key hlen hbytes]
  refine ⟨⟨b, hkts, hstk, ?_⟩, ?_, ?_⟩
  · rw [hstk]
    simp only [Except.bind]
    rw [hkts]
    simp only [Except.bind]
    rw [hstk]
    simp only [Except.bind]
    rw [hkts]
    simp only [Except.bind]
    exact hstk
  · intro t k2 h
    unfold stringToKey at h
    rcases ha : jsAtob t with e | w
    · rw [ha] at h
      exact Except.noConfusion h
    rw [ha] at h
    simp only [] at h
    rcases hp : parseJSON w with e | jwk
    · rw [hp] at h
      exact Except.noConfusion h
    rw [hp] at h
    simp only [] at h
    rcases hi : importKeyJwk jwk with e | kk
    · rw [hi] at h
      exact Except.noConfusion h
    rw [hi] at h
    simp only [] at h
    injection h with h2
    subst h2
    refine ⟨w, jwk, rfl, hp, hi, ?_⟩
    unfold importKeyJwk at hi
    split at hi
    · split at hi
      · split at hi
        · rename_i bytes hdec hl
          injection hi with h3
          subst h3
          exact hl
        · exact Except.noConfusion hi
      · exact Except.noConfusion hi
    · exact Except.noConfusion hi
  · intro t
    unfold stringToKey
    rcases ha : jsAtob t with e | w
    · exact Or.inr ⟨e, rfl⟩
    simp only []
    rcases hp : parseJSON w with e | jwk
    · exact Or.inr ⟨e, rfl⟩
    simp only []
    rcases hi : importKeyJwk jwk with e | kk
    · exact Or.inr ⟨e, rfl⟩
    · exact Or.inl ⟨kk, rfl⟩

/-- Witness for C6: the round trip and the completeness properties hold
at the concrete 32-byte key with bytes 0..31. -/
theorem claim_C6_witness :
    c6Key.keyBytes.length = 32 ∧ (∀ b ∈ c6Key.keyBytes, b < 256) ∧
    ((∃ s, keyToString c6Key = .ok s ∧ stringToKey s = .ok c6Key ∧
      ((stringToKey s).bind (fun k1 => (keyToString k1).bind stringToKey)).bind
        (fun k2 => (keyToString k2).bind stringToKey) = .ok c6Key) ∧
    (∀ t k2, stringToKey t = .ok k2 →
      ∃ jwkString jwk, jsAtob t = .ok jwkString ∧ parseJSON jwkString = .ok jwk ∧
        importKeyJwk jwk = .ok k2 ∧
        (k2.keyBytes.length = 32 ∨ k2.keyBytes.length = 24 ∨ k2.keyBytes.length = 16)) ∧
    (∀ t, (∃ k2, stringToKey t = .ok k2) ∨
      ∃ e, stringToKey t = .error ("Failed to deserialize key: " ++ e))) :=
  ⟨by decide, by decide,
    claim_C6_key_serialization_roundtrip c6Key (by decide) (by decide)⟩

end SafeKeys
